import Mathlib

/-!
# Verification of the Dexster-PRO server dashboard core

Shallow embedding of the process-lifecycle manager and its collaborators
from `src/db.js` (a JSON-file-backed Express dashboard): the path-key
codec, the persisted console log, the virtual file store with its rename
operation, and the start/stop/kill/delete/viewer-channel handlers.
All definitions are translated from the JavaScript source; JS strings are
modelled as `List Char`, JS `Map`s as association lists in insertion
order, and the filesystem / npm / clock environment as explicit oracle
inputs.
-/

namespace Dexster

/-! ## Path-key codec (src/db.js lines 2669-2670)

`encodeFilePathKey = (filePath) => filePath.replace(/\./g, '__DOT__')`
`decodeFilePathKey = (encodedKey) => encodedKey.replace(/__DOT__/g, '.')`

JavaScript `String.replace` with a `/g` regex rewrites the leftmost,
non-overlapping occurrences scanning left to right.
-/

/-- The reserved escape token `__DOT__`. -/
def dotTok : List Char := ['_', '_', 'D', 'O', 'T', '_', '_']

/-- The five-character core `__DOT` of the escape token. -/
def tok5 : List Char := ['_', '_', 'D', 'O', 'T']

/-- `begins t s` holds when `s` starts with `t` (JS `String.startsWith`). -/
def begins : List Char → List Char → Bool
  | [], _ => true
  | _ :: _, [] => false
  | a :: ts, b :: bs => a == b && begins ts bs

/-- `occurs t s` holds when `t` appears as a contiguous substring of `s`
(JS `String.includes`). -/
def occurs (t : List Char) : List Char → Bool
  | [] => begins t []
  | c :: cs => begins t (c :: cs) || occurs t cs

/-- `encodeFilePathKey` on character lists: every literal `'.'` is replaced
by the token `__DOT__`; all other characters are copied. -/
def encodeL : List Char → List Char
  | [] => []
  | c :: cs => (if c == '.' then dotTok else [c]) ++ encodeL cs

/-- `decodeFilePathKey` on character lists: scanning left to right, each
occurrence of `__DOT__` is replaced by `'.'` and the scan resumes after it;
other characters are copied. -/
def decodeL : List Char → List Char
  | '_' :: '_' :: 'D' :: 'O' :: 'T' :: '_' :: '_' :: rest => '.' :: decodeL rest
  | c :: cs => c :: decodeL cs
  | [] => []

/-- String-level `encodeFilePathKey` (src/db.js:2669). -/
def encodeFilePathKey (p : String) : String := String.mk (encodeL p.toList)

/-- String-level `decodeFilePathKey` (src/db.js:2670). -/
def decodeFilePathKey (k : String) : String := String.mk (decodeL k.toList)

/-- The repository normalizes user-facing paths by turning backslashes into
forward slashes (src/db.js:2688, `dir.replace(/\\/g, '/')`). -/
def normalizeL (p : List Char) : List Char :=
  p.map (fun c => if c == '\\' then '/' else c)

/-- A well-formed relative path: nonempty, no leading or trailing slash and
no empty segment. -/
def validRelPath (p : List Char) : Bool :=
  !p.isEmpty && !(begins ['/'] p) && !(begins ['/'] p.reverse) &&
    !(occurs ['/', '/'] p)

/-! ## Persisted console log and process state (src/db.js lines 216-257)

The JSON database arrays `appConsoleLogs` and `appProcessState` are modelled
as lists of records in insertion order; `Date.now()` values are explicit
`Nat` inputs.
-/

/-- A row of the `appConsoleLogs` array. -/
structure LogRecord where
  userId : String
  serverId : String
  timestamp : Nat
  content : String
deriving DecidableEq, Repr

/-- `saveConsoleLog` (src/db.js:216-222): push the new row, then if the
array exceeds `MAX = 5000` rows, splice away the oldest surplus rows.
The bound is on the whole array, across all (user, server) pairs. -/
def saveConsoleLog (now : Nat) (userId serverId content : String)
    (db : List LogRecord) : List LogRecord :=
  let db2 := db ++ [⟨userId, serverId, now, content⟩]
  if 5000 < db2.length then db2.drop (db2.length - 5000) else db2

/-- JS `Array.prototype.slice(-n)`: the last `n` elements, except that
`slice(-0)` is `slice(0)`, the whole array. -/
def sliceNeg (n : Nat) (l : List α) : List α :=
  if n = 0 then l else l.drop (l.length - n)

/-- The last `n` (or fewer) elements of a list; used to state what "the
newest `n` entries" means in the spec. -/
def lastN (n : Nat) (l : List α) : List α := l.drop (l.length - n)

/-- `getRecentConsoleLogs` (src/db.js:224-232): filter the rows of the pair,
stable-sort them by timestamp (JS `Array.prototype.sort` is stable;
`List.insertionSort` is a stable sort), take the last `limit` via
`slice(-limit)` and project the contents. -/
def getRecentConsoleLogs (userId serverId : String) (limit : Nat)
    (db : List LogRecord) : List String :=
  (sliceNeg limit
    (List.insertionSort (fun a b => a.timestamp ≤ b.timestamp)
      (db.filter (fun r => r.userId == userId && r.serverId == serverId)))).map
    (fun r => r.content)

/-- `clearConsoleLogs` (src/db.js:234-238). -/
def clearConsoleLogs (userId serverId : String) (db : List LogRecord) :
    List LogRecord :=
  db.filter (fun r => !(r.userId == userId && r.serverId == serverId))

/-- A sequence of `saveConsoleLog` calls, one per record, in order. -/
def applyAppends (l : List LogRecord) (db : List LogRecord) : List LogRecord :=
  l.foldl (fun d r => saveConsoleLog r.timestamp r.userId r.serverId r.content d) db

/-- A row of the `appProcessState` array. -/
structure ProcRecord where
  userId : String
  serverId : String
  isRunning : Bool
  startTime : Option Nat
deriving DecidableEq, Repr

/-- The `upsert` helper (src/db.js:62-65): replace the first row matching the
key, else push at the end. -/
def upsertProc : List ProcRecord → ProcRecord → List ProcRecord
  | [], r => [r]
  | x :: xs, r =>
    if x.userId == r.userId && x.serverId == r.serverId then r :: xs
    else x :: upsertProc xs r

/-- `setProcessState` (src/db.js:241-245). -/
def setProcessState (userId serverId : String) (running : Bool)
    (startTime : Option Nat) (db : List ProcRecord) : List ProcRecord :=
  upsertProc db ⟨userId, serverId, running, startTime⟩

/-- `clearProcessState` (src/db.js:247-251). -/
def clearProcessState (userId serverId : String) (db : List ProcRecord) :
    List ProcRecord :=
  db.filter (fun r => !(r.userId == userId && r.serverId == serverId))

/-- `getProcessState` (src/db.js:253-257): defaults to not running. -/
def getProcessState (userId serverId : String) (db : List ProcRecord) :
    Bool × Option Nat :=
  match db.find? (fun r => r.userId == userId && r.serverId == serverId) with
  | some r => (r.isRunning, r.startTime)
  | none => (false, none)

/-! ## Virtual file store and rename (src/db.js lines 3064-3143)

A server's `files` JS `Map` from encoded path key to base64 content is an
association list in insertion order; keys are `List Char`.
-/

/-- The `files` map of a server. -/
abbrev FileMap := List (List Char × String)

/-- JS `Map.prototype.has`. -/
def mapHas (k : List Char) (m : FileMap) : Bool := m.any (fun e => e.1 == k)

/-- JS `Map.prototype.get`. -/
def mapGet (k : List Char) (m : FileMap) : Option String :=
  (m.find? (fun e => e.1 == k)).map (fun e => e.2)

/-- JS `Map.prototype.set`: overwrite in place if the key exists (keeping its
insertion position), else append. -/
def mapSet (k : List Char) (v : String) (m : FileMap) : FileMap :=
  if mapHas k m then m.map (fun e => if e.1 == k then (k, v) else e)
  else m ++ [(k, v)]

/-- JS `Map.prototype.delete`. -/
def mapDelete (k : List Char) (m : FileMap) : FileMap :=
  m.filter (fun e => !(e.1 == k))

/-- The keys of the map, in insertion order (`Array.from(m.keys())`). -/
def mapKeys (m : FileMap) : List (List Char) := m.map (fun e => e.1)

/-- JS whitespace for `String.prototype.trim` (the characters that occur in
this code base). -/
def isWsp (c : Char) : Bool :=
  (c == ' ') || (c == '\t') || (c == '\n') || (c == '\r')

/-- JS `String.prototype.trim`. -/
def trimL (s : List Char) : List Char :=
  ((s.dropWhile isWsp).reverse.dropWhile isWsp).reverse

/-- Split a path at its last `'/'`: `some (before, after)` with `after`
slash-free, or `none` when the path has no slash. -/
def splitLastSlash : List Char → Option (List Char × List Char)
  | [] => none
  | c :: cs =>
    match splitLastSlash cs with
    | some (b, a) => some (c :: b, a)
    | none => if c == '/' then some ([], cs) else none

/-- Models Node `path.posix.dirname` on normalized relative paths
(`path.dirname(filePath)` at src/db.js:3088): everything before the last
slash, or `"."` when there is none. -/
def dirnameL (p : List Char) : List Char :=
  match splitLastSlash p with
  | none => ['.']
  | some (b, _) => b

/-- Models Node `path.posix.join` on normalized relative segments
(`path.join(oldPathDir, trimmedNewName)` at src/db.js:3089). -/
def joinL (d n : List Char) : List Char :=
  if d == ['.'] then n else d ++ '/' :: n

/-- The `.replace(/\\\\/g, '/')` applied to the joined path
(src/db.js:3089): each two-backslash pair becomes one forward slash,
scanning left to right. -/
def replaceDblBackslash : List Char → List Char
  | [] => []
  | [c] => [c]
  | c1 :: c2 :: rest =>
    if c1 == '\\' && c2 == '\\' then '/' :: replaceDblBackslash rest
    else c1 :: replaceDblBackslash (c2 :: rest)

/-- The new-name validation of the rename handler (src/db.js:3081): reject
an empty or all-whitespace name, a name containing `/`, or a name containing
a two-backslash pair. -/
def validNewName (n : List Char) : Bool :=
  !n.isEmpty && !(trimL n).isEmpty && !(n.contains '/') &&
    !(occurs ['\\', '\\'] n)

/-- The observable outcome of the rename handler (which redirect is taken). -/
inductive RenameOutcome
  | invalidName
  | notFound
  | destExists
  | renamedFile
  | renamedDir
deriving DecidableEq, Repr

/-- The destination key of a moved entry:
`newPrefix + oldKey.substring(oldPrefix.length)` (src/db.js:3125). -/
def renamedKey (oldPrf newPrf k : List Char) : List Char :=
  newPrf ++ k.drop oldPrf.length

/-- One iteration of the directory-rename loop (src/db.js:3124-3128):
`set(newKey, get(oldKey))` then `delete(oldKey)`. -/
def moveStep (oldPrf newPrf : List Char) (m : FileMap) (k : List Char) : FileMap :=
  mapDelete k (mapSet (renamedKey oldPrf newPrf k) ((mapGet k m).getD "") m)

/-- The `/rename-file` handler core (src/db.js:3081-3131), after the
permission check: validate the new name, resolve the new full path, detect
file vs directory source, reject a missing source or an existing
destination, and otherwise move one key (file) or every key under the old
prefix (directory). -/
def renameFileHandler (files : FileMap) (filePath newName : List Char) :
    RenameOutcome × FileMap :=
  if validNewName newName = false then (RenameOutcome.invalidName, files)
  else
    let trimmedNewName := trimL newName
    let oldPathDir := dirnameL filePath
    let newFullFilePath := replaceDblBackslash (joinL oldPathDir trimmedNewName)
    let encodedOldFilePath := encodeL filePath
    let encodedNewFullFilePath := encodeL newFullFilePath
    let isFile := mapHas encodedOldFilePath files
    let isDirectory := !isFile &&
      (mapKeys files).any (fun k => begins (encodedOldFilePath ++ encodeL ['/']) k)
    if !isFile && !isDirectory then (RenameOutcome.notFound, files)
    else
      let newPathExistsAsFile := mapHas encodedNewFullFilePath files
      let newPathExistsAsDirectory :=
        (mapKeys files).any (fun k => begins (encodedNewFullFilePath ++ encodeL ['/']) k)
      if newPathExistsAsFile || newPathExistsAsDirectory then
        (RenameOutcome.destExists, files)
      else if isFile then
        (RenameOutcome.renamedFile,
          mapDelete encodedOldFilePath
            (mapSet encodedNewFullFilePath
              ((mapGet encodedOldFilePath files).getD "") files))
      else
        let oldPrefix := encodedOldFilePath ++ encodeL ['/']
        let newPrefix := encodedNewFullFilePath ++ encodeL ['/']
        let keysToRename := (mapKeys files).filter (fun k => begins oldPrefix k)
        (RenameOutcome.renamedDir, keysToRename.foldl (moveStep oldPrefix newPrefix) files)

/-! ## Lifecycle manager (src/db.js lines 290-347, 437-574, 2286-2304,
4650-5073, 5209-5295)

The mutable module state (`consoleLogs`, `runningProcesses`,
`serverStartTime`, the JSON database arrays) is one record `LCState`, plus
ghost observation lists for spawned child processes, delivered kill
signals, websocket broadcasts and child stdin writes.  Filesystem checks,
`npm` outcomes, `Date.now()` and `toLocaleTimeString` values are explicit
oracle inputs (a `StartEnv` / boolean parameters).
-/

/-- The permission flags of a shared user that the lifecycle routes consult. -/
structure PermFlags where
  editSettings : Bool
  editStartup : Bool
deriving DecidableEq, Repr

/-- A row of the `appServers` array, as the routes see it after
`ServerModel` wraps the maps. -/
structure ServerRec where
  id : String
  name : String
  ownerId : String
  isSuspended : Bool
  users : List (String × PermFlags)
  files : FileMap
  startupSettings : List (String × String)
deriving DecidableEq, Repr

/-- JS plain-object / `Map` property read (generic over the key type). -/
def objGet [BEq κ] (k : κ) (o : List (κ × β)) : Option β :=
  (o.find? (fun e => e.1 == k)).map (fun e => e.2)

/-- JS plain-object / `Map` property write: overwrite in place, else append. -/
def objSet [BEq κ] (k : κ) (v : β) (o : List (κ × β)) : List (κ × β) :=
  if o.any (fun e => e.1 == k) then o.map (fun e => if e.1 == k then (k, v) else e)
  else o ++ [(k, v)]

/-- JS `delete o[k]` / `Map.prototype.delete`. -/
def objDelete [BEq κ] (k : κ) (o : List (κ × β)) : List (κ × β) :=
  o.filter (fun e => !(e.1 == k))

/-- The string key `` `${userId}-${serverId}` `` used for `consoleLogs` and
`serverStartTime` (src/db.js:337). -/
def logKey (userId serverId : String) : String := userId ++ "-" ++ serverId

/-- The global mutable state touched by the lifecycle manager. -/
structure LCState where
  /-- `consoleLogs`: in-memory per-key line buffers (src/db.js:294). -/
  consoleMem : List (String × List String)
  /-- the persisted `appConsoleLogs` array. -/
  consoleDb : List LogRecord
  /-- the persisted `appProcessState` array. -/
  procState : List ProcRecord
  /-- `runningProcesses`: nested map userId → serverId → child pid
  (src/db.js:295). -/
  registry : List (String × List (String × Nat))
  /-- `serverStartTime` (src/db.js:296). -/
  startTimes : List (String × Nat)
  /-- the persisted `appServers` array. -/
  servers : List ServerRec
  /-- ghost: pids of child processes spawned so far. -/
  spawned : List Nat
  /-- ghost: pids that were sent a termination signal. -/
  killed : List Nat
  /-- ghost: websocket broadcasts `(userId, serverId, payload)`. -/
  sent : List (String × String × String)
  /-- ghost: lines written to a child process's standard input.  No code in
  src/db.js ever writes to a child stdin stream. -/
  childStdin : List (Nat × String)
deriving DecidableEq, Repr

/-- `runningProcesses[u]?.[s]` read. -/
def regGet (u s : String) (reg : List (String × List (String × Nat))) : Option Nat :=
  match objGet u reg with
  | none => none
  | some inner => objGet s inner

/-- `runningProcesses[u][s] = pid` (the handlers ensure `[u]` exists first;
an absent user map is treated as empty). -/
def regSetEntry (u s : String) (pid : Nat)
    (reg : List (String × List (String × Nat))) : List (String × List (String × Nat)) :=
  objSet u (objSet s pid ((objGet u reg).getD [])) reg

/-- `delete runningProcesses[u]?.[s]`. -/
def regDelete (u s : String) (reg : List (String × List (String × Nat))) :
    List (String × List (String × Nat)) :=
  match objGet u reg with
  | none => reg
  | some inner => objSet u (objDelete s inner) reg

/-- JS `String.prototype.includes` over already-lowercased char lists. -/
def listIncludes (needle : String) (hay : List Char) : Bool :=
  occurs needle.toList hay

/-- `formatConsoleOutput` (src/db.js:307-333): trim the raw line, classify
its severity by case-insensitive keyword search, and wrap it in the HTML
span with a timestamp.  `ts` models `new Date().toLocaleTimeString('ar-EG')`;
JS `trim`/`toLowerCase` are `trimL` and a `Char.toLower` map over the
character list. -/
def formatConsoleOutput (ts : String) (log : String) : String :=
  let cleanLog := trimL log.toList
  let lowerLog := cleanLog.map Char.toLower
  let pair :=
    if listIncludes "error" lowerLog || listIncludes "خطأ" lowerLog ||
        listIncludes "err" lowerLog then
      ("console-log-error", "<i class='fas fa-times-circle text-red-500 mr-1'></i>")
    else if listIncludes "warn" lowerLog || listIncludes "تحذير" lowerLog ||
        listIncludes "warn" lowerLog then
      ("console-log-warn", "<i class='fas fa-exclamation-triangle text-yellow-400 mr-1'></i>")
    else if listIncludes "success" lowerLog || listIncludes "تم" lowerLog ||
        listIncludes "completed" lowerLog || listIncludes "تثبيت الحزم" lowerLog then
      ("console-log-success", "<i class='fas fa-check-circle text-green-500 mr-1'></i>")
    else if listIncludes "info" lowerLog || listIncludes "معلومات" lowerLog then
      ("console-log-info", "<i class='fas fa-info-circle text-blue-400 mr-1'></i>")
    else
      ("console-log-info", "<i class='fas fa-terminal text-slate-400 mr-1'></i>")
  ("<span class='" ++ pair.1 ++ "'>" ++ "<span class='text-gray-400'>[" ++ ts ++
    "]</span>" ++ " " ++ pair.2 ++ " ") ++ (String.mk cleanLog ++ "</span>")

/-- `trimLogs` (src/db.js:350-354): keep only the newest `maxLogSize = 1000`
in-memory lines. -/
def trimLogs (logs : List String) : List String :=
  if 1000 < logs.length then logs.drop (logs.length - 1000) else logs

/-- `initializeServerLogs` (src/db.js:336-347). -/
def initializeServerLogs (userId serverId : String) (now : Nat) (st : LCState) :
    LCState :=
  let key := logKey userId serverId
  let st1 :=
    if (objGet key st.consoleMem).isSome then st
    else { st with consoleMem := objSet key [] st.consoleMem }
  let st2 :=
    if (objGet userId st1.registry).isSome then st1
    else { st1 with registry := objSet userId [] st1.registry }
  if (objGet key st2.startTimes).isSome then st2
  else { st2 with startTimes := objSet key now st2.startTimes }

/-- `consoleLogs[key].push(line)`. -/
def pushMem (u s line : String) (st : LCState) : LCState :=
  let key := logKey u s
  { st with consoleMem :=
      objSet key ((objGet key st.consoleMem).getD [] ++ [line]) st.consoleMem }

/-- `trimLogs(consoleLogs[key])` applied in place. -/
def pushTrim (u s : String) (st : LCState) : LCState :=
  let key := logKey u s
  { st with consoleMem :=
      objSet key (trimLogs ((objGet key st.consoleMem).getD [])) st.consoleMem }

/-- The `wss.clients.forEach(...)` broadcast to the viewers of one key. -/
def broadcast (u s payload : String) (st : LCState) : LCState :=
  { st with sent := st.sent ++ [(u, s, payload)] }

/-- `saveConsoleLog` applied to the persisted array inside `LCState`. -/
def persistLine (now : Nat) (u s line : String) (st : LCState) : LCState :=
  { st with consoleDb := saveConsoleLog now u s line st.consoleDb }

/-- Startup-setting read with the JS `|| default` fallback (an empty string
is falsy). -/
def settingOr (key dflt : String) (settings : List (String × String)) : String :=
  match objGet key settings with
  | some v => if v == "" then dflt else v
  | none => dflt

/-- JS `String.prototype.trim` as a `String` function. -/
def jsTrim (s : String) : String := String.mk (trimL s.toList)

/-- Helper for `splitWs`: split on whitespace runs, accumulating the current
token reversed. -/
def splitWsAux : List Char → List Char → List String
  | [], acc => if acc.isEmpty then [] else [String.mk acc.reverse]
  | c :: cs, acc =>
    if isWsp c then
      if acc.isEmpty then splitWsAux cs []
      else String.mk acc.reverse :: splitWsAux cs []
    else splitWsAux cs (c :: acc)

/-- `packages.trim().split(/\s+/).filter(pkg => pkg)`: the whitespace-run
split with empty tokens discarded. -/
def splitWs (s : String) : List String := splitWsAux s.toList []

/-- The filesystem / npm / clock oracle of one `startServerInBackground`
run.  All `Date.now()` calls of the run are modelled by `now` and all
`toLocaleTimeString` calls by `ts`. -/
structure StartEnv where
  /-- `fs.existsSync(serverDir)` at entry (src/db.js:4654). -/
  dirExisted : Bool
  /-- the initial `fs.remove(serverDir)` rejects (src/db.js:4656-4670). -/
  initialRemoveFails : Bool
  /-- `fs.existsSync(mainFilePath)` (src/db.js:4755). -/
  mainFileExists : Bool
  /-- `fs.existsSync(packageJsonPath)` (src/db.js:4769). -/
  packageJsonExists : Bool
  /-- outcome of `npm install <packages> --save` (src/db.js:4725). -/
  userInstall : Except String (String × String)
  /-- outcome of `npm install` (src/db.js:4780). -/
  fullInstall : Except String (String × String)
  /-- the handle of the child process spawned by `spawn` (src/db.js:4826). -/
  newPid : Nat
  /-- `Date.now()`. -/
  now : Nat
  /-- `new Date().toLocaleTimeString('ar-EG')`. -/
  ts : String
deriving Repr

/-- The user-requested extra-package installation block
(src/db.js:4717-4750): its header line is pushed but not persisted; stdout,
stderr and the success line are pushed and persisted; a failure logs an
error line (pushed, broadcast, not persisted) and the start continues. -/
def installUserPackages (env : StartEnv) (u s : String) (pkgs : List String)
    (st : LCState) : LCState :=
  let msg1 := formatConsoleOutput env.ts
    ("📦 جاري تثبيت الحزم المحددة من إعدادات بدء التشغيل: " ++
      String.intercalate ", " pkgs ++ "...")
  let st := broadcast u s msg1 (pushMem u s msg1 st)
  match env.userInstall with
  | Except.ok (stdout, stderr) =>
    let st :=
      if stdout != "" then
        let f := formatConsoleOutput env.ts stdout
        broadcast u s f (persistLine env.now u s f (pushMem u s f st))
      else st
    let st :=
      if stderr != "" then
        let f := formatConsoleOutput env.ts stderr
        broadcast u s f (persistLine env.now u s f (pushMem u s f st))
      else st
    let done := formatConsoleOutput env.ts
      "✅ تم تثبيت الحزم المحددة من إعدادات بدء التشغيل بنجاح."
    broadcast u s done (persistLine env.now u s done (pushMem u s done st))
  | Except.error emsg =>
    let f := formatConsoleOutput env.ts
      ("❌ خطأ في تثبيت الحزم المحددة من إعدادات بدء التشغيل: " ++ emsg)
    broadcast u s f (pushMem u s f st)

/-- The full-manifest installation block (src/db.js:4768-4823): a failure
logs the error line (pushed, persisted, broadcast) and re-throws. -/
def installFullManifest (env : StartEnv) (u s : String) (st : LCState) :
    Except (String × LCState) LCState :=
  let msg := formatConsoleOutput env.ts "📦 جاري تثبيت الحزم المطلوبة..."
  let st := broadcast u s msg (persistLine env.now u s msg (pushMem u s msg st))
  match env.fullInstall with
  | Except.ok (stdout, stderr) =>
    let st :=
      if stdout != "" then
        let f := formatConsoleOutput env.ts stdout
        broadcast u s f (persistLine env.now u s f (pushMem u s f st))
      else st
    let st :=
      if stderr != "" then
        let f := formatConsoleOutput env.ts stderr
        broadcast u s f (persistLine env.now u s f (pushMem u s f st))
      else st
    let done := formatConsoleOutput env.ts "✅ تم تثبيت الحزم بنجاح. جاري تشغيل السيرفر..."
    Except.ok (broadcast u s done (persistLine env.now u s done (pushMem u s done st)))
  | Except.error emsg =>
    let f := formatConsoleOutput env.ts ("❌ خطأ في تثبيت الحزم: " ++ emsg)
    Except.error (emsg, broadcast u s f (persistLine env.now u s f (pushMem u s f st)))

/-- The preparation prefix of `startServerInBackground`
(src/db.js:4652-4751): best-effort cleanup of a stale working directory,
console clear with sentinel, the preparing line, file materialization, and
the tolerated user-package installation. -/
def startPrep (env : StartEnv) (serverId targetUserId : String)
    (server : ServerRec) (st0 : LCState) : LCState :=
  let key := logKey targetUserId serverId
  let st1 :=
    if env.dirExisted && env.initialRemoveFails then
      let warn := formatConsoleOutput env.ts
        "⚠️ تحذير: فشل تنظيف المجلد المؤقت القديم. سيتم محاولة الكتابة فوقه."
      broadcast targetUserId serverId warn
        (pushTrim targetUserId serverId
          (pushMem targetUserId serverId warn
            (initializeServerLogs targetUserId serverId env.now st0)))
    else st0
  let st2 := initializeServerLogs targetUserId serverId env.now st1
  let st3 := { st2 with
    consoleMem := objSet key [] st2.consoleMem,
    consoleDb := clearConsoleLogs targetUserId serverId st2.consoleDb }
  let st4 := broadcast targetUserId serverId "__CLEAR_CONSOLE__" st3
  let startMsg := formatConsoleOutput env.ts "🚀 جاري تجهيز السيرفر... برجاء الانتظار"
  let st5 := broadcast targetUserId serverId startMsg
    (persistLine env.now targetUserId serverId startMsg
      (pushMem targetUserId serverId startMsg st4))
  -- file materialization (src/db.js:4700-4706) only touches the filesystem
  let userPackages := (objGet "packages" server.startupSettings).getD ""
  if jsTrim userPackages != "" && (splitWs (jsTrim userPackages)).length != 0 then
    installUserPackages env targetUserId serverId (splitWs (jsTrim userPackages)) st5
  else st5

/-- `startServerInBackground` (src/db.js:4650-4919): run the preparation
prefix, abort if the resolved entry script does not exist (one fatal line,
no spawn), run the full-manifest install when `package.json` exists
(failure fatal via the outer catch), then spawn, register the handle,
record the start time and persist the running state. -/
def startServerInBackground (env : StartEnv) (serverId targetUserId : String)
    (server : ServerRec) (st0 : LCState) : LCState :=
  let key := logKey targetUserId serverId
  let mainFile := settingOr "mainFile" "index.js" server.startupSettings
  let port := settingOr "port" "3000" server.startupSettings
  let st6 := startPrep env serverId targetUserId server st0
  if env.mainFileExists = false then
    let errMsg := formatConsoleOutput env.ts
      ("❌ ملف التشغيل الرئيسي (" ++ mainFile ++ ") غير موجود")
    broadcast targetUserId serverId errMsg
      (persistLine env.now targetUserId serverId errMsg
        (pushMem targetUserId serverId errMsg st6))
  else
    match
      (if env.packageJsonExists then installFullManifest env targetUserId serverId st6
       else Except.ok st6) with
    | Except.error (emsg, st7) =>
      -- the re-thrown install failure reaches the outer catch (src/db.js:4908-4918)
      let outerMsg := formatConsoleOutput env.ts
        ("❌ حدث خطأ أثناء تشغيل السيرفر: " ++ emsg)
      broadcast targetUserId serverId outerMsg
        (pushMem targetUserId serverId outerMsg st7)
    | Except.ok st7 =>
      let st8 := { st7 with
        spawned := st7.spawned ++ [env.newPid],
        registry := regSetEntry targetUserId serverId env.newPid st7.registry,
        startTimes := objSet key env.now st7.startTimes,
        procState := setProcessState targetUserId serverId true (some env.now)
          st7.procState }
      let okMsg := formatConsoleOutput env.ts
        ("✅ تم تشغيل السيرفر بنجاح على المنفذ " ++ port)
      broadcast targetUserId serverId okMsg
        (persistLine env.now targetUserId serverId okMsg
          (pushMem targetUserId serverId okMsg st8))

/-- The observable outcome of a route handler (which redirect is sent). -/
inductive RouteRes
  | redirectErr (msg : String)
  | redirectOk (msg : String)
deriving DecidableEq, Repr

/-- The `ensureServerAccess` middleware (src/db.js:520-574), for a logged-in
actor that exists: locate the server, check ownership of the target user,
reject a suspended server for non-admin actors, and require owner, admin or
shared-user access.  `some msg` is the error redirect, `none` lets the
request through. -/
def ensureServerAccess (actorId : String) (actorIsAdmin : Bool)
    (targetUserId : String) (srvOpt : Option ServerRec) : Option String :=
  match srvOpt with
  | none => some "السيرفر غير موجود"
  | some server =>
    if server.ownerId != targetUserId then some "السيرفر لا ينتمي إلى هذا المستخدم"
    else if server.isSuspended && !actorIsAdmin then
      some "هذا السيرفر معلق. يرجى التواصل مع الإدارة"
    else if actorId == server.ownerId || actorIsAdmin ||
        (objGet actorId server.users).isSome then none
    else some "غير مصرح لك بالوصول إلى هذا السيرفر"

/-- The `/start-server` route (src/db.js:4921-4939) behind `ensureLoggedIn`
and `ensureServerAccess`: re-find the server, reject when absent or
suspended (for every actor), otherwise fire `startServerInBackground` and
immediately acknowledge.  There is no check of `runningProcesses`. -/
def startServerHandler (env : StartEnv) (actorId : String) (actorIsAdmin : Bool)
    (userIdField : Option String) (serverId : String) (srvOpt : Option ServerRec)
    (st : LCState) : RouteRes × LCState :=
  let targetUserId := userIdField.getD actorId
  match ensureServerAccess actorId actorIsAdmin targetUserId srvOpt with
  | some msg => (RouteRes.redirectErr msg, st)
  | none =>
    match srvOpt with
    | none => (RouteRes.redirectErr "السيرفر غير موجود", st)
    | some server =>
      if server.isSuspended then
        (RouteRes.redirectErr "هذا السيرفر معلق. يرجى التواصل مع الإدارة", st)
      else
        (RouteRes.redirectOk "جاري تشغيل السيرفر... تحقق من الكونسول لمتابعة العملية",
          startServerInBackground env serverId targetUserId server st)

/-- The `/stop-server` route (src/db.js:4941-4973): permission check, reject
when no registry handle exists, otherwise kill, drop the registry entry,
clear the running state, log the stop line, then `fs.removeSync` — which is
NOT guarded by any try/catch, so a removal failure (`removeFails`) escapes
the handler before the broadcast, the audit log and the success redirect.
`Except.error` models the escaped exception. -/
def stopServerHandler (removeFails : Bool) (ts : String) (now : Nat)
    (actorId : String) (actorIsAdmin : Bool) (userIdField : Option String)
    (serverId : String) (server : ServerRec) (st : LCState) :
    Except String RouteRes × LCState :=
  let targetUserId := userIdField.getD actorId
  match ensureServerAccess actorId actorIsAdmin targetUserId (some server) with
  | some msg => (Except.ok (RouteRes.redirectErr msg), st)
  | none =>
    let isServerOwner := server.ownerId == actorId
    let perms := (objGet actorId server.users).getD ⟨false, false⟩
    if !isServerOwner && !actorIsAdmin && !perms.editSettings then
      (Except.ok (RouteRes.redirectErr "غير مصرح لك بإيقاف السيرفر"), st)
    else
      match regGet targetUserId serverId st.registry with
      | none => (Except.ok (RouteRes.redirectErr "السيرفر متوقف بالفعل"), st)
      | some pid =>
        let st := { st with
          killed := st.killed ++ [pid],
          registry := regDelete targetUserId serverId st.registry,
          procState := setProcessState targetUserId serverId false none st.procState }
        let stopMsg := formatConsoleOutput ts "[معلومات] تم إيقاف السيرفر"
        let st := pushTrim targetUserId serverId
          (persistLine now targetUserId serverId stopMsg
            (pushMem targetUserId serverId stopMsg st))
        if removeFails then (Except.error "fs.removeSync failed", st)
        else
          let st := broadcast targetUserId serverId "[معلومات] تم إيقاف السيرفر" st
          (Except.ok (RouteRes.redirectOk "تم إيقاف السيرفر بنجاح"), st)

/-- The `/kill-server` route (src/db.js:5210-5295): permission check; with a
live handle it logs the kill line, sends SIGKILL (a send failure
`sigkillFails` only logs a warning), always drops the registry entry and
cleans the directory asynchronously — a cleanup failure (`removeFails`)
only logs a warning line; without a handle it logs an informational
"was not running" line.  The handler never throws. -/
def killServerHandler (removeFails sigkillFails : Bool) (ts : String) (now : Nat)
    (actorId : String) (actorIsAdmin : Bool) (userIdField : Option String)
    (serverId : String) (server : ServerRec) (st : LCState) :
    RouteRes × LCState :=
  let targetUserId := userIdField.getD actorId
  match ensureServerAccess actorId actorIsAdmin targetUserId (some server) with
  | some msg => (RouteRes.redirectErr msg, st)
  | none =>
    let isServerOwner := server.ownerId == actorId
    let perms := (objGet actorId server.users).getD ⟨false, false⟩
    if !isServerOwner && !actorIsAdmin && !perms.editSettings then
      (RouteRes.redirectErr "غير مصرح لك بإيقاف السيرفر قسراً", st)
    else
      let st := initializeServerLogs targetUserId serverId now st
      match regGet targetUserId serverId st.registry with
      | some pid =>
        let killMsg := formatConsoleOutput ts "🛑 [هام] تم طلب إيقاف قسري للسيرفر (Kill)..."
        let st := broadcast targetUserId serverId killMsg
          (pushTrim targetUserId serverId (pushMem targetUserId serverId killMsg st))
        let st :=
          if sigkillFails then
            let killErrorMsg := formatConsoleOutput ts
              "⚠️ تحذير: حدث خطأ أثناء محاولة إرسال إشارة الإيقاف القسري."
            broadcast targetUserId serverId killErrorMsg
              (pushTrim targetUserId serverId
                (pushMem targetUserId serverId killErrorMsg st))
          else { st with killed := st.killed ++ [pid] }
        let st := { st with registry := regDelete targetUserId serverId st.registry }
        let st :=
          if removeFails then
            let cleanupWarnMsg := formatConsoleOutput ts
              "⚠️ تحذير: فشل حذف المجلد المؤقت تلقائياً بعد الإيقاف القسري."
            broadcast targetUserId serverId cleanupWarnMsg
              (pushTrim targetUserId serverId
                (pushMem targetUserId serverId cleanupWarnMsg st))
          else st
        (RouteRes.redirectOk "تم إرسال إشارة الإيقاف القسري بنجاح.", st)
      | none =>
        let notRunningMsg := formatConsoleOutput ts
          "ℹ️ السيرفر لم يكن يعمل لمحاولة الإيقاف القسري."
        let st := broadcast targetUserId serverId notRunningMsg
          (pushTrim targetUserId serverId (pushMem targetUserId serverId notRunningMsg st))
        -- the best-effort directory cleanup failure is logged server-side only
        (RouteRes.redirectErr "السيرفر لم يكن يعمل أو لا يمكن إيجاد العملية.", st)

/-- The `/restart-server` route (src/db.js:4975-5073): permission check
(`editStartup`), then if running log the stop line, kill and deregister,
wait a grace delay and remove the working directory (`.catch`: a failure is
logged server-side only); always clear the console (memory, database,
sentinel), log the restarting line and run the full start sequence.
`removeFails` models whether that `fs.remove` rejects: the handler's
behaviour does not depend on it, because the rejection is swallowed by the
`.catch` callback (src/db.js:5009-5011, 5016-5018). -/
def restartServerHandler (removeFails : Bool) (env : StartEnv) (actorId : String)
    (actorIsAdmin : Bool) (userIdField : Option String) (serverId : String)
    (server : ServerRec) (st : LCState) : RouteRes × LCState :=
  let targetUserId := userIdField.getD actorId
  match ensureServerAccess actorId actorIsAdmin targetUserId (some server) with
  | some msg => (RouteRes.redirectErr msg, st)
  | none =>
    let isServerOwner := server.ownerId == actorId
    let perms := (objGet actorId server.users).getD ⟨false, false⟩
    if !isServerOwner && !actorIsAdmin && !perms.editStartup then
      (RouteRes.redirectErr "غير مصرح لك بإعادة تشغيل السيرفر (يتطلب إذن تعديل بدء التشغيل)", st)
    else
      let st := initializeServerLogs targetUserId serverId env.now st
      let st :=
        match regGet targetUserId serverId st.registry with
        | some pid =>
          let stopMsg := formatConsoleOutput env.ts "[معلومات] إيقاف السيرفر لإعادة التشغيل..."
          let st := broadcast targetUserId serverId stopMsg
            (pushTrim targetUserId serverId (pushMem targetUserId serverId stopMsg st))
          -- kill, deregister, grace delay, then fs.remove(...).catch(...):
          -- a removal failure is logged server-side only, never thrown
          { st with
            killed := st.killed ++ [pid],
            registry := regDelete targetUserId serverId st.registry }
        | none => st
      let key := logKey targetUserId serverId
      let st := { st with
        consoleMem := objSet key [] st.consoleMem,
        consoleDb := clearConsoleLogs targetUserId serverId st.consoleDb }
      let st := broadcast targetUserId serverId "__CLEAR_CONSOLE__" st
      let restartingMsg := formatConsoleOutput env.ts
        "[معلومات] جاري إعادة تشغيل السيرفر مع الإعدادات المحدثة..."
      let st := broadcast targetUserId serverId restartingMsg
        (pushTrim targetUserId serverId (pushMem targetUserId serverId restartingMsg st))
      (RouteRes.redirectOk "جاري إعادة تشغيل السيرفر... تحقق من الكونسول لمتابعة العملية",
        startServerInBackground env serverId targetUserId server st)

/-- The `/delete-server` route (src/db.js:2286-2304): owner-or-admin check,
kill and drop a registered child process, then delete the server record.
It does not touch `appProcessState` and does not touch `appConsoleLogs`. -/
def deleteServerHandler (actorId : String) (actorIsAdmin : Bool)
    (userIdField : Option String) (serverId : String) (server : ServerRec)
    (st : LCState) : RouteRes × LCState :=
  let targetUserId := userIdField.getD actorId
  match ensureServerAccess actorId actorIsAdmin targetUserId (some server) with
  | some msg => (RouteRes.redirectErr msg, st)
  | none =>
    let isServerOwner := server.ownerId == actorId
    if !isServerOwner && !actorIsAdmin then
      (RouteRes.redirectErr "غير مصرح لك بحذف السيرفر", st)
    else
      let st :=
        match regGet targetUserId serverId st.registry with
        | some pid =>
          { st with
            killed := st.killed ++ [pid],
            registry := regDelete targetUserId serverId st.registry }
        | none => st
      let st := { st with servers := st.servers.filter (fun sv => sv.id != serverId) }
      (RouteRes.redirectOk "تم حذف السيرفر بنجاح", st)

/-- A websocket viewer attach (src/db.js:483-501): initialize the per-key
buffers and replay the recent persisted history to the new viewer. -/
def wsOnConnect (userId serverId : String) (now : Nat) (st : LCState) :
    LCState × List String :=
  let st := initializeServerLogs userId serverId now st
  (st, getRecentConsoleLogs userId serverId 100 st.consoleDb)

/-- A line of input submitted by an attached viewer (src/db.js:483-501).
The connection handler registers no `message` handler — only the attach
replay above and an empty `close` handler — so an incoming viewer line
changes no state, writes nothing to any child process's standard input, and
sends nothing back to the viewer.  The second component is the list of
messages sent in response. -/
def wsOnMessage (userId serverId : String) (line : String) (st : LCState) :
    LCState × List (String × String × String) :=
  (st, [])

/-- The child `close` handler (src/db.js:4878-4891): log the exit line,
deregister, clear the running state, best-effort remove the working
directory (`.catch(() => {})` — a failure is swallowed), broadcast. -/
def processCloseHandler (removeFails : Bool) (ts : String) (code : Int)
    (targetUserId serverId : String) (st : LCState) : LCState :=
  let closeMessage := formatConsoleOutput ts
    ("❌ توقف السيرفر (رمز الخروج: " ++ toString code ++ ")")
  let st := pushTrim targetUserId serverId
    (pushMem targetUserId serverId closeMessage st)
  let st := { st with
    registry := regDelete targetUserId serverId st.registry,
    procState := setProcessState targetUserId serverId false none st.procState }
  broadcast targetUserId serverId closeMessage st

/-- The child `error` handler (src/db.js:4893-4905): log the error line,
deregister, clear the running state, then `fs.removeSync(serverDir)` — NOT
guarded, so a removal failure escapes before the broadcast. -/
def processErrorHandler (removeFails : Bool) (ts : String) (emsg : String)
    (targetUserId serverId : String) (st : LCState) : Except String Unit × LCState :=
  let errorMsg := formatConsoleOutput ts ("❌ خطأ في بدء تشغيل السيرفر: " ++ emsg)
  let st := pushTrim targetUserId serverId
    (pushMem targetUserId serverId errorMsg st)
  let st := { st with
    registry := regDelete targetUserId serverId st.registry,
    procState := setProcessState targetUserId serverId false none st.procState }
  if removeFails then (Except.error "fs.removeSync failed", st)
  else (Except.ok (), broadcast targetUserId serverId errorMsg st)

/-! ## Concrete fixtures used by counterexamples and witnesses -/

/-- The state after dashboard boot: every global map empty. -/
def emptyState : LCState := ⟨[], [], [], [], [], [], [], [], [], []⟩

/-- A plain unsuspended server owned by `alice` with default startup
settings. -/
def sampleServer : ServerRec :=
  { id := "srv1", name := "one", ownerId := "alice", isSuspended := false,
    users := [], files := [], startupSettings := [] }

/-- `sampleServer`, suspended by an administrator. -/
def suspendedServer : ServerRec := { sampleServer with isSuspended := true }

/-- A benign oracle: the working directory is fresh, the entry script
exists, there is no dependency manifest, installs succeed, the spawn yields
pid 42. -/
def sampleEnv : StartEnv :=
  { dirExisted := false, initialRemoveFails := false, mainFileExists := true,
    packageJsonExists := false, userInstall := Except.ok ("", ""),
    fullInstall := Except.ok ("", ""), newPid := 42, now := 5, ts := "12:00:00" }

/-- A state in which the child process 7 is registered for
(`alice`, `srv1`). -/
def runningState : LCState :=
  { emptyState with registry := [("alice", [("srv1", 7)])] }

/-- A state with a live handle, a persisted running `ProcessState` record
and one persisted console line for (`alice`, `srv1`), plus the server
record itself. -/
def deleteCEState : LCState :=
  { emptyState with
    registry := [("alice", [("srv1", 7)])],
    procState := [⟨"alice", "srv1", true, some 3⟩],
    consoleDb := [⟨"alice", "srv1", 1, "line1"⟩],
    servers := [sampleServer] }

theorem decodeL_nil : decodeL [] = [] := rfl

theorem begins_cons (a b : Char) (ts bs : List Char) :
    begins (a :: ts) (b :: bs) = (a == b && begins ts bs) := rfl

theorem begins_eq_append : ∀ {t s : List Char}, begins t s = true → ∃ u, s = t ++ u
  | [], s, _ => ⟨s, rfl⟩
  | _ :: _, [], h => by simp [begins] at h
  | a :: ts, b :: bs, h => by
    rw [begins_cons, Bool.and_eq_true] at h
    obtain ⟨u, hu⟩ := begins_eq_append h.2
    have hab : a = b := by simpa using h.1
    subst hab
    exact ⟨u, by rw [hu]; rfl⟩

theorem decodeL_cons (c : Char) (cs : List Char) :
    decodeL (c :: cs) =
      if begins dotTok (c :: cs) then '.' :: decodeL (cs.drop 6)
      else c :: decodeL cs := by
  by_cases hb : begins dotTok (c :: cs) = true
  · rw [if_pos hb]
    obtain ⟨u, hu⟩ := begins_eq_append hb
    rw [show dotTok ++ u = '_' :: '_' :: 'D' :: 'O' :: 'T' :: '_' :: '_' :: u from rfl] at hu
    rw [List.cons.injEq] at hu
    obtain ⟨hc, hcs⟩ := hu
    subst hc; subst hcs
    rfl
  · rw [if_neg hb]
    rw [decodeL.eq_def]
    split
    · rename_i rest heq
      exfalso
      apply hb
      rw [List.cons.injEq] at heq
      obtain ⟨hc, hcs⟩ := heq
      subst hc; subst hcs
      simp [dotTok, begins]
    · rename_i c1 cs1 hne1 heq
      rw [List.cons.injEq] at heq
      obtain ⟨hc, hcs⟩ := heq
      subst hc; subst hcs
      rfl
    · rename_i heq
      exact absurd heq (by simp)

theorem begins_append_self (t x : List Char) : begins t (t ++ x) = true := by
  induction t with
  | nil => rfl
  | cons a ts ih => simp [begins, ih]

theorem decodeL_dotTok_append (x : List Char) :
    decodeL (dotTok ++ x) = '.' :: decodeL x := by
  show decodeL ('_' :: (['_', 'D', 'O', 'T', '_', '_'] ++ x)) = '.' :: decodeL x
  rw [decodeL_cons]
  have hb : begins dotTok ('_' :: (['_', 'D', 'O', 'T', '_', '_'] ++ x)) = true :=
    begins_append_self dotTok x
  rw [if_pos hb]
  rfl

theorem encodeL_cons_of_ne {c : Char} (h : (c == '.') = false) (p : List Char) :
    encodeL (c :: p) = c :: encodeL p := by
  simp [encodeL, h]

theorem encodeL_cons_dot (p : List Char) :
    encodeL ('.' :: p) = dotTok ++ encodeL p := by
  simp [encodeL]

/-- Pulling a begins-fact through `encodeL`: a pattern head other than `'_'`
must be matched by a literal source character. -/
theorem begins_encodeL_pull {a : Char} (ha1 : (a == '_') = false)
    (r : List Char) :
    ∀ (q : List Char), begins (a :: r) (encodeL q) = true →
      ∃ q', q = a :: q' ∧ begins r (encodeL q') = true := by
  intro q h
  match q with
  | [] => simp [encodeL, begins] at h
  | d :: q' =>
    by_cases hd : (d == '.') = true
    · rw [show d = '.' from by simpa using hd, encodeL_cons_dot] at h
      rw [show dotTok ++ encodeL q' = '_' :: (['_', 'D', 'O', 'T', '_', '_'] ++ encodeL q')
        from rfl, begins_cons, ha1] at h
      simp at h
    · rw [encodeL_cons_of_ne (by simpa using hd)] at h
      have h2 : (a == d && begins r (encodeL q')) = true := h
      rw [Bool.and_eq_true] at h2
      have had : a = d := by simpa using h2.1
      exact ⟨q', by rw [had], h2.2⟩

/-- If the full token `__DOT__` begins at a position `c :: encodeL p'` of an
encoded string, then the five-character core `__DOT` already begins at the
corresponding position `c :: p'` of the source string. -/
theorem begins_dotTok_encodeL {c : Char} {p' : List Char}
    (h : begins dotTok (c :: encodeL p') = true) :
    begins tok5 (c :: p') = true := by
  rw [show dotTok = '_' :: ['_', 'D', 'O', 'T', '_', '_'] from rfl, begins_cons,
    Bool.and_eq_true] at h
  have hc : c = '_' := by
    have := h.1
    simp at this
    exact this.symm
  have h1 : begins ['_', 'D', 'O', 'T', '_', '_'] (encodeL p') = true := h.2
  -- first pattern character '_' : p' must start with a literal '_'
  obtain ⟨q1, hq1, h2⟩ : ∃ q1, p' = '_' :: q1 ∧
      begins ['D', 'O', 'T', '_', '_'] (encodeL q1) = true := by
    match p' with
    | [] => simp [encodeL, begins] at h1
    | d :: q1 =>
      by_cases hd : (d == '.') = true
      · rw [show d = '.' from by simpa using hd, encodeL_cons_dot] at h1
        simp [dotTok, begins] at h1
      · rw [encodeL_cons_of_ne (by simpa using hd), begins_cons, Bool.and_eq_true] at h1
        have hd2 : d = '_' := by
          have := h1.1
          simp at this
          exact this.symm
        exact ⟨q1, by rw [hd2], h1.2⟩
  obtain ⟨q2, hq2, h3⟩ := begins_encodeL_pull (by decide) _ q1 h2
  obtain ⟨q3, hq3, h4⟩ := begins_encodeL_pull (by decide) _ q2 h3
  obtain ⟨q4, hq4, _⟩ := begins_encodeL_pull (by decide) _ q3 h4
  subst hq1; subst hq2; subst hq3; subst hq4; subst hc
  simp [tok5, begins]

theorem occurs_cons (t : List Char) (c : Char) (cs : List Char) :
    occurs t (c :: cs) = (begins t (c :: cs) || occurs t cs) := rfl

/-- Round-trip of the codec for paths avoiding the token core `__DOT`
(the interesting direction of the claimed codec law). -/
theorem decodeL_encodeL (p : List Char) (h : occurs tok5 p = false) :
    decodeL (encodeL p) = p := by
  induction p with
  | nil => rw [show encodeL [] = [] from rfl, decodeL_nil]
  | cons c p ih =>
    rw [occurs_cons] at h
    have hb : begins tok5 (c :: p) = false := by
      cases hx : begins tok5 (c :: p) <;> simp [hx] at h ⊢
    have ho : occurs tok5 p = false := by
      cases hx : occurs tok5 p <;> simp [hx] at h ⊢
    by_cases hc : (c == '.') = true
    · rw [show c = '.' from by simpa using hc, encodeL_cons_dot,
        decodeL_dotTok_append, ih ho]
    · rw [encodeL_cons_of_ne (by simpa using hc), decodeL_cons]
      have hnb : begins dotTok (c :: encodeL p) = false := by
        cases hx : begins dotTok (c :: encodeL p)
        · rfl
        · exact absurd (begins_dotTok_encodeL hx) (by simp [hb])
      rw [if_neg (by simp [hnb]), ih ho]

/-- Pulling a begins-fact through `decodeL`: a pattern head other than `'.'`
must be matched by a copied source character. -/
theorem begins_decodeL_pull {a : Char} (ha : (a == '.') = false) :
    ∀ (s : List Char) {r : List Char}, begins (a :: r) (decodeL s) = true →
      ∃ s', s = a :: s' ∧ begins r (decodeL s') = true := by
  intro s r h
  match s with
  | [] => simp [decodeL, begins] at h
  | c :: cs =>
    rw [decodeL_cons] at h
    by_cases hb : begins dotTok (c :: cs) = true
    · rw [if_pos hb] at h
      have h2 : (a == '.' && begins r (decodeL (cs.drop 6))) = true := h
      rw [ha] at h2
      simp at h2
    · rw [if_neg hb] at h
      have h2 : (a == c && begins r (decodeL cs)) = true := h
      rw [Bool.and_eq_true] at h2
      have hac : a = c := by simpa using h2.1
      exact ⟨cs, by rw [hac], h2.2⟩

/-- `decodeL` never produces a string containing the token `__DOT__`. -/
theorem occurs_dotTok_decodeL : ∀ (s : List Char), occurs dotTok (decodeL s) = false
  | [] => by simp [decodeL, occurs, dotTok, begins]
  | c :: cs => by
    rw [decodeL_cons]
    by_cases hb : begins dotTok (c :: cs) = true
    · rw [if_pos hb]
      have h2 := occurs_dotTok_decodeL (cs.drop 6)
      rw [occurs_cons]
      have h1 : begins dotTok ('.' :: decodeL (cs.drop 6)) = false := by
        simp [dotTok, begins]
      simp [h1, h2]
    · rw [if_neg hb]
      have h2 := occurs_dotTok_decodeL cs
      rw [occurs_cons]
      have h1 : begins dotTok (c :: decodeL cs) = false := by
        cases hx : begins dotTok (c :: decodeL cs)
        · rfl
        · exfalso
          rw [show dotTok = '_' :: ['_', 'D', 'O', 'T', '_', '_'] from rfl, begins_cons,
            Bool.and_eq_true] at hx
          have hc : c = '_' := by
            have := hx.1
            simp at this
            exact this.symm
          have hrest := hx.2
          obtain ⟨s1, hs1, hrest⟩ := begins_decodeL_pull (by decide) cs hrest
          obtain ⟨s2, hs2, hrest⟩ := begins_decodeL_pull (by decide) s1 hrest
          obtain ⟨s3, hs3, hrest⟩ := begins_decodeL_pull (by decide) s2 hrest
          obtain ⟨s4, hs4, hrest⟩ := begins_decodeL_pull (by decide) s3 hrest
          obtain ⟨s5, hs5, hrest⟩ := begins_decodeL_pull (by decide) s4 hrest
          obtain ⟨s6, hs6, _⟩ := begins_decodeL_pull (by decide) s5 hrest
          subst hs1; subst hs2; subst hs3; subst hs4; subst hs5; subst hs6; subst hc
          apply hb
          simp [dotTok, begins]
      simp [h1, h2]
termination_by s => s.length
decreasing_by
  · simp only [List.length_cons, List.length_drop]
    omega
  · simp

theorem normalizeL_of_no_backslash {p : List Char} (h : p.contains '\\' = false) :
    normalizeL p = p := by
  induction p with
  | nil => rfl
  | cons c cs ih =>
    rw [List.contains_cons] at h
    rw [Bool.or_eq_false_iff] at h
    have hc : (c == '\\') = false := by
      cases hx : (c == '\\')
      · rfl
      · have : ('\\' == c) = true := by
          have : c = '\\' := by simpa using hx
          simp [this]
        rw [this] at h
        exact absurd h.1 (by simp)
    simp only [normalizeL, List.map_cons, hc, Bool.false_eq_true, if_false]
    have := ih h.2
    simp only [normalizeL] at this
    rw [this]

/-- C9 counterexample: the relative path `__DOT_.` does not contain the
reserved escape token `__DOT__`, yet decoding its encoded key yields
`._DOT__`, not the (already normalized) path itself: the inverse property
`decode(encode(p)) == normalize(p)` fails. -/
theorem C9_path_codec_counterexample :
    validRelPath ['_', '_', 'D', 'O', 'T', '_', '.'] = true ∧
    occurs dotTok ['_', '_', 'D', 'O', 'T', '_', '.'] = false ∧
    decodeL (encodeL ['_', '_', 'D', 'O', 'T', '_', '.']) ≠
      normalizeL ['_', '_', 'D', 'O', 'T', '_', '.'] := by
  refine ⟨by decide, by decide, ?_⟩
  decide

/-- C9 (amended): for every valid relative path that does not contain the
escape-token core `__DOT` (a strengthening of "does not contain the escape
token `__DOT__`", forced by overlaps such as `__DOT_.`) and contains no
backslash, decoding the encoded path key yields the normalized path. -/
theorem C9_path_codec_roundtrip (p : List Char) (hv : validRelPath p = true)
    (h5 : occurs tok5 p = false) (hbs : p.contains '\\' = false) :
    decodeL (encodeL p) = normalizeL p := by
  rw [normalizeL_of_no_backslash hbs]
  exact decodeL_encodeL p h5

/-! ## Association-map helper lemmas -/

theorem objGet_cons [BEq κ] (k : κ) (a : κ × β) (o : List (κ × β)) :
    objGet k (a :: o) = if (a.1 == k) = true then some a.2 else objGet k o := by
  unfold objGet
  rw [List.find?_cons]
  cases h : (a.1 == k) with
  | true => simp [h]
  | false => simp [h]

theorem objGet_map_set_self [BEq κ] [LawfulBEq κ] (k : κ) (v : β) :
    ∀ (o : List (κ × β)), (o.any fun e => e.1 == k) = true →
      objGet k (o.map (fun e => if e.1 == k then (k, v) else e)) = some v
  | [], h => by simp at h
  | a :: o, h => by
    rw [List.map_cons]
    by_cases ha : (a.1 == k) = true
    · rw [if_pos ha, objGet_cons]
      simp
    · have ha' : (a.1 == k) = false := by simpa using ha
      rw [if_neg ha, objGet_cons, if_neg (by simp [ha'])]
      apply objGet_map_set_self
      rw [List.any_cons, ha', Bool.false_or] at h
      exact h

theorem objGet_append_single_self [BEq κ] [LawfulBEq κ] (k : κ) (v : β) :
    ∀ (o : List (κ × β)), (o.any fun e => e.1 == k) = false →
      objGet k (o ++ [(k, v)]) = some v
  | [], _ => by
    rw [List.nil_append, objGet_cons]
    simp
  | a :: o, h => by
    rw [List.any_cons, Bool.or_eq_false_iff] at h
    rw [List.cons_append, objGet_cons, if_neg (by simp [h.1])]
    exact objGet_append_single_self k v o h.2

theorem objGet_objSet_self [BEq κ] [LawfulBEq κ] (k : κ) (v : β)
    (o : List (κ × β)) : objGet k (objSet k v o) = some v := by
  unfold objSet
  by_cases h : (o.any fun e => e.1 == k) = true
  · rw [if_pos h]
    exact objGet_map_set_self k v o h
  · rw [if_neg h]
    refine objGet_append_single_self k v o ?_
    cases hx : (o.any fun e => e.1 == k) with
    | false => rfl
    | true => exact absurd hx h

theorem objGet_map_set_ne [BEq κ] [LawfulBEq κ] {k' k : κ}
    (h : (k' == k) = false) (v : β) :
    ∀ (o : List (κ × β)),
      objGet k' (o.map (fun e => if e.1 == k then (k, v) else e)) = objGet k' o
  | [] => rfl
  | a :: o => by
    rw [List.map_cons]
    have hkk : (k == k') = false := by
      cases hx : (k == k')
      · rfl
      · have hk : k = k' := by simpa using hx
        subst hk
        simp at h
    by_cases ha : (a.1 == k) = true
    · have ha1 : a.1 = k := by simpa using ha
      rw [if_pos ha, objGet_cons, objGet_cons, if_neg (by simp [hkk]),
        if_neg (by simp [ha1, hkk])]
      exact objGet_map_set_ne h v o
    · rw [if_neg ha, objGet_cons, objGet_cons]
      by_cases hx : (a.1 == k') = true
      · rw [if_pos hx, if_pos hx]
      · rw [if_neg hx, if_neg hx]
        exact objGet_map_set_ne h v o

theorem objGet_append_single_ne [BEq κ] [LawfulBEq κ] {k' k : κ}
    (h : (k' == k) = false) (v : β) :
    ∀ (o : List (κ × β)), objGet k' (o ++ [(k, v)]) = objGet k' o
  | [] => by
    rw [List.nil_append, objGet_cons]
    have hkk : (k == k') = false := by
      cases hx : (k == k')
      · rfl
      · have hk : k = k' := by simpa using hx
        subst hk
        simp at h
    rw [if_neg (by simp [hkk])]
  | a :: o => by
    rw [List.cons_append, objGet_cons, objGet_cons]
    by_cases hx : (a.1 == k') = true
    · rw [if_pos hx, if_pos hx]
    · rw [if_neg hx, if_neg hx]
      exact objGet_append_single_ne h v o

theorem objGet_objSet_ne [BEq κ] [LawfulBEq κ] {k' k : κ}
    (h : (k' == k) = false) (v : β) (o : List (κ × β)) :
    objGet k' (objSet k v o) = objGet k' o := by
  unfold objSet
  by_cases hc : (o.any fun e => e.1 == k) = true
  · rw [if_pos hc]
    exact objGet_map_set_ne h v o
  · rw [if_neg hc]
    exact objGet_append_single_ne h v o

theorem objGet_objDelete_self [BEq κ] (k : κ) :
    ∀ (o : List (κ × β)), objGet k (objDelete k o) = none
  | [] => rfl
  | a :: o => by
    unfold objDelete
    rw [List.filter_cons]
    by_cases ha : (a.1 == k) = true
    · rw [if_neg (by simp [ha])]
      exact objGet_objDelete_self k o
    · have ha' : (a.1 == k) = false := by simpa using ha
      rw [if_pos (by simp [ha']), objGet_cons, if_neg (by simp [ha'])]
      exact objGet_objDelete_self k o

theorem regGet_regSetEntry_self (u s : String) (pid : Nat)
    (reg : List (String × List (String × Nat))) :
    regGet u s (regSetEntry u s pid reg) = some pid := by
  unfold regGet regSetEntry
  rw [objGet_objSet_self]
  exact objGet_objSet_self s pid _

theorem regGet_regDelete_self (u s : String)
    (reg : List (String × List (String × Nat))) :
    regGet u s (regDelete u s reg) = none := by
  unfold regGet regDelete
  cases h : objGet u reg with
  | none => rw [h]
  | some inner =>
    rw [objGet_objSet_self]
    exact objGet_objDelete_self s inner

/-! ## C10: the path-key encoding is not injective -/

/-- C10: two distinct logical paths — `a.b` and `a__DOT__b`, the latter
containing the literal escape token — encode to the same flat map key, so a
file stored under one is read back through the other (aliasing); and for
every path containing the token, decoding the encoded key yields a
different path. -/
theorem C10_encoding_not_injective :
    (encodeL ['a', '.', 'b'] =
        encodeL ['a', '_', '_', 'D', 'O', 'T', '_', '_', 'b'] ∧
      ['a', '.', 'b'] ≠ ['a', '_', '_', 'D', 'O', 'T', '_', '_', 'b']) ∧
    mapGet (encodeL ['a', '_', '_', 'D', 'O', 'T', '_', '_', 'b'])
        (mapSet (encodeL ['a', '.', 'b']) "v" []) = some "v" ∧
    (∀ p : List Char, occurs dotTok p = true → decodeL (encodeL p) ≠ p) := by
  refine ⟨⟨by decide, by decide⟩, by decide, ?_⟩
  intro p hp heq
  have hno := occurs_dotTok_decodeL (encodeL p)
  rw [heq, hp] at hno
  exact Bool.noConfusion hno

theorem C10_encoding_not_injective_witness :
    occurs dotTok ['x', '_', '_', 'D', 'O', 'T', '_', '_'] = true ∧
    decodeL (encodeL ['x', '_', '_', 'D', 'O', 'T', '_', '_']) ≠
      ['x', '_', '_', 'D', 'O', 'T', '_', '_'] :=
  ⟨by decide, C10_encoding_not_injective.2.2 _ (by decide)⟩

/-! ## C3: viewer input is never forwarded to the child process -/

/-- C3 counterexample: a child process (pid 7) is registered for
(`alice`, `srv1`), an attached viewer submits a line, and the line is NOT
forwarded to the child's standard input (nothing is ever written to any
child stdin, and no message is sent back to the viewer): the claimed
forwarding branch does not exist in the code. -/
theorem C3_viewer_input_counterexample :
    regGet "alice" "srv1" runningState.registry = some 7 ∧
    (wsOnMessage "alice" "srv1" "hello" runningState).1.childStdin = [] ∧
    (wsOnMessage "alice" "srv1" "hello" runningState).2 = [] := by
  refine ⟨by decide, rfl, rfl⟩

/-- C3 (amended): a line of input submitted by an attached viewer is always
silently dropped — whether or not a child process is registered for the key
— with no state change, no stdin write, and no error back to the viewer
(the websocket connection handler registers no message handler). -/
theorem C3_viewer_input_dropped (userId serverId line : String) (st : LCState) :
    wsOnMessage userId serverId line st = (st, []) := rfl

/-! ## C2: deleting a server does not cascade to persisted state -/

/-- C2 counterexample: deleting `srv1` (owned by `alice`, child 7 running,
one persisted console line, a running `ProcessState` record) kills the
child, removes the registry entry and the server record — but the persisted
`ProcessState` record still reports running and the persisted console log
line is still there: the claimed cascade does not remove them. -/
theorem C2_delete_cascade_counterexample :
    (deleteServerHandler "alice" false none "srv1" sampleServer deleteCEState).1 =
      RouteRes.redirectOk "تم حذف السيرفر بنجاح" ∧
    (deleteServerHandler "alice" false none "srv1" sampleServer deleteCEState).2.killed =
      [7] ∧
    regGet "alice" "srv1"
      (deleteServerHandler "alice" false none "srv1" sampleServer deleteCEState).2.registry =
      none ∧
    (deleteServerHandler "alice" false none "srv1" sampleServer deleteCEState).2.servers =
      [] ∧
    (getProcessState "alice" "srv1"
      (deleteServerHandler "alice" false none "srv1" sampleServer deleteCEState).2.procState).1 =
      true ∧
    getRecentConsoleLogs "alice" "srv1" 100
      (deleteServerHandler "alice" false none "srv1" sampleServer deleteCEState).2.consoleDb =
      ["line1"] := by
  refine ⟨by decide, by decide, by decide, by decide, by decide, by decide⟩

/-- C2 (amended): explicit deletion by the owner kills the running child
process for the key, removes its registry entry and removes the server
record — but leaves the persisted `ProcessState` record and the persisted
console logs untouched. -/
theorem C2_delete_server_cascade (serverId : String) (server0 : ServerRec)
    (st : LCState) :
    (deleteServerHandler server0.ownerId false none serverId
        { server0 with isSuspended := false } st).1 =
      RouteRes.redirectOk "تم حذف السيرفر بنجاح" ∧
    (deleteServerHandler server0.ownerId false none serverId
        { server0 with isSuspended := false } st).2.killed =
      st.killed ++
        (match regGet server0.ownerId serverId st.registry with
         | some pid => [pid]
         | none => []) ∧
    regGet server0.ownerId serverId
      (deleteServerHandler server0.ownerId false none serverId
        { server0 with isSuspended := false } st).2.registry = none ∧
    (deleteServerHandler server0.ownerId false none serverId
        { server0 with isSuspended := false } st).2.servers =
      st.servers.filter (fun sv => sv.id != serverId) ∧
    (deleteServerHandler server0.ownerId false none serverId
        { server0 with isSuspended := false } st).2.procState = st.procState ∧
    (deleteServerHandler server0.ownerId false none serverId
        { server0 with isSuspended := false } st).2.consoleDb = st.consoleDb := by
  cases hr : regGet server0.ownerId serverId st.registry with
  | some pid =>
    have hrun : deleteServerHandler server0.ownerId false none serverId
        { server0 with isSuspended := false } st =
        (RouteRes.redirectOk "تم حذف السيرفر بنجاح",
          { st with
              killed := st.killed ++ [pid],
              registry := regDelete server0.ownerId serverId st.registry,
              servers := st.servers.filter (fun sv => sv.id != serverId) }) := by
      simp only [deleteServerHandler, ensureServerAccess, Option.getD_none]
      simp [hr]
    rw [hrun]
    exact ⟨rfl, rfl, regGet_regDelete_self _ _ _, rfl, rfl, rfl⟩
  | none =>
    have hrun : deleteServerHandler server0.ownerId false none serverId
        { server0 with isSuspended := false } st =
        (RouteRes.redirectOk "تم حذف السيرفر بنجاح",
          { st with servers := st.servers.filter (fun sv => sv.id != serverId) }) := by
      simp only [deleteServerHandler, ensureServerAccess, Option.getD_none]
      simp [hr]
    rw [hrun]
    exact ⟨rfl, by simp, hr, rfl, rfl, rfl⟩

/-! ## C4: a suspended server cannot be started by anyone -/

/-- C4 counterexample: an administrator (privileged actor) starting a
suspended server is rejected with the suspension error and nothing changes
— the claim that a privileged actor may start it is false: the
`/start-server` handler checks `server.isSuspended` unconditionally. -/
theorem C4_suspended_admin_counterexample :
    (startServerHandler sampleEnv "admin" true (some "alice") "srv1"
        (some suspendedServer) emptyState).1 =
      RouteRes.redirectErr "هذا السيرفر معلق. يرجى التواصل مع الإدارة" ∧
    (startServerHandler sampleEnv "admin" true (some "alice") "srv1"
        (some suspendedServer) emptyState).2 = emptyState := by
  refine ⟨by decide, by decide⟩

/-- C4 (amended): `start` on a server with `isSuspended = true` is rejected
with an error redirect for EVERY actor, privileged or not, and the state is
not mutated at all: no registry entry, no spawn, no transition out of
`Stopped`. -/
theorem C4_suspended_start_rejected (env : StartEnv) (actorId : String)
    (actorIsAdmin : Bool) (userIdField : Option String) (serverId : String)
    (server : ServerRec) (st : LCState) :
    (startServerHandler env actorId actorIsAdmin userIdField serverId
        (some { server with isSuspended := true }) st).2 = st ∧
    ∃ m, (startServerHandler env actorId actorIsAdmin userIdField serverId
        (some { server with isSuspended := true }) st).1 =
      RouteRes.redirectErr m := by
  constructor
  · simp only [startServerHandler]
    cases hacc : ensureServerAccess actorId actorIsAdmin
        (userIdField.getD actorId) (some { server with isSuspended := true }) with
    | some msg => simp [hacc]
    | none => simp [hacc]
  · simp only [startServerHandler]
    cases hacc : ensureServerAccess actorId actorIsAdmin
        (userIdField.getD actorId) (some { server with isSuspended := true }) with
    | some msg => exact ⟨msg, by simp [hacc]⟩
    | none =>
      exact ⟨"هذا السيرفر معلق. يرجى التواصل مع الإدارة", by simp [hacc]⟩

/-! ## State-threading lemmas for the lifecycle handlers -/

@[simp] theorem pushMem_registry (u s l : String) (st : LCState) :
    (pushMem u s l st).registry = st.registry := rfl

@[simp] theorem pushMem_spawned (u s l : String) (st : LCState) :
    (pushMem u s l st).spawned = st.spawned := rfl

@[simp] theorem pushMem_killed (u s l : String) (st : LCState) :
    (pushMem u s l st).killed = st.killed := rfl

@[simp] theorem pushMem_procState (u s l : String) (st : LCState) :
    (pushMem u s l st).procState = st.procState := rfl

@[simp] theorem pushMem_consoleDb (u s l : String) (st : LCState) :
    (pushMem u s l st).consoleDb = st.consoleDb := rfl

@[simp] theorem pushMem_startTimes (u s l : String) (st : LCState) :
    (pushMem u s l st).startTimes = st.startTimes := rfl

@[simp] theorem pushMem_sent (u s l : String) (st : LCState) :
    (pushMem u s l st).sent = st.sent := rfl

@[simp] theorem pushMem_servers (u s l : String) (st : LCState) :
    (pushMem u s l st).servers = st.servers := rfl

@[simp] theorem pushTrim_registry (u s : String) (st : LCState) :
    (pushTrim u s st).registry = st.registry := rfl

@[simp] theorem pushTrim_spawned (u s : String) (st : LCState) :
    (pushTrim u s st).spawned = st.spawned := rfl

@[simp] theorem pushTrim_killed (u s : String) (st : LCState) :
    (pushTrim u s st).killed = st.killed := rfl

@[simp] theorem pushTrim_procState (u s : String) (st : LCState) :
    (pushTrim u s st).procState = st.procState := rfl

@[simp] theorem pushTrim_consoleDb (u s : String) (st : LCState) :
    (pushTrim u s st).consoleDb = st.consoleDb := rfl

@[simp] theorem pushTrim_startTimes (u s : String) (st : LCState) :
    (pushTrim u s st).startTimes = st.startTimes := rfl

@[simp] theorem pushTrim_sent (u s : String) (st : LCState) :
    (pushTrim u s st).sent = st.sent := rfl

@[simp] theorem pushTrim_servers (u s : String) (st : LCState) :
    (pushTrim u s st).servers = st.servers := rfl

@[simp] theorem broadcast_registry (u s p : String) (st : LCState) :
    (broadcast u s p st).registry = st.registry := rfl

@[simp] theorem broadcast_spawned (u s p : String) (st : LCState) :
    (broadcast u s p st).spawned = st.spawned := rfl

@[simp] theorem broadcast_killed (u s p : String) (st : LCState) :
    (broadcast u s p st).killed = st.killed := rfl

@[simp] theorem broadcast_procState (u s p : String) (st : LCState) :
    (broadcast u s p st).procState = st.procState := rfl

@[simp] theorem broadcast_consoleDb (u s p : String) (st : LCState) :
    (broadcast u s p st).consoleDb = st.consoleDb := rfl

@[simp] theorem broadcast_consoleMem (u s p : String) (st : LCState) :
    (broadcast u s p st).consoleMem = st.consoleMem := rfl

@[simp] theorem broadcast_startTimes (u s p : String) (st : LCState) :
    (broadcast u s p st).startTimes = st.startTimes := rfl

@[simp] theorem broadcast_servers (u s p : String) (st : LCState) :
    (broadcast u s p st).servers = st.servers := rfl

@[simp] theorem persistLine_registry (n : Nat) (u s l : String) (st : LCState) :
    (persistLine n u s l st).registry = st.registry := rfl

@[simp] theorem persistLine_spawned (n : Nat) (u s l : String) (st : LCState) :
    (persistLine n u s l st).spawned = st.spawned := rfl

@[simp] theorem persistLine_killed (n : Nat) (u s l : String) (st : LCState) :
    (persistLine n u s l st).killed = st.killed := rfl

@[simp] theorem persistLine_procState (n : Nat) (u s l : String) (st : LCState) :
    (persistLine n u s l st).procState = st.procState := rfl

@[simp] theorem persistLine_consoleMem (n : Nat) (u s l : String) (st : LCState) :
    (persistLine n u s l st).consoleMem = st.consoleMem := rfl

@[simp] theorem persistLine_startTimes (n : Nat) (u s l : String) (st : LCState) :
    (persistLine n u s l st).startTimes = st.startTimes := rfl

@[simp] theorem persistLine_sent (n : Nat) (u s l : String) (st : LCState) :
    (persistLine n u s l st).sent = st.sent := rfl

@[simp] theorem persistLine_servers (n : Nat) (u s l : String) (st : LCState) :
    (persistLine n u s l st).servers = st.servers := rfl

@[simp] theorem initializeServerLogs_spawned (u s : String) (n : Nat) (st : LCState) :
    (initializeServerLogs u s n st).spawned = st.spawned := by
  simp only [initializeServerLogs]
  split_ifs <;> rfl

@[simp] theorem initializeServerLogs_killed (u s : String) (n : Nat) (st : LCState) :
    (initializeServerLogs u s n st).killed = st.killed := by
  simp only [initializeServerLogs]
  split_ifs <;> rfl

@[simp] theorem initializeServerLogs_procState (u s : String) (n : Nat) (st : LCState) :
    (initializeServerLogs u s n st).procState = st.procState := by
  simp only [initializeServerLogs]
  split_ifs <;> rfl

@[simp] theorem initializeServerLogs_consoleDb (u s : String) (n : Nat) (st : LCState) :
    (initializeServerLogs u s n st).consoleDb = st.consoleDb := by
  simp only [initializeServerLogs]
  split_ifs <;> rfl

@[simp] theorem initializeServerLogs_sent (u s : String) (n : Nat) (st : LCState) :
    (initializeServerLogs u s n st).sent = st.sent := by
  simp only [initializeServerLogs]
  split_ifs <;> rfl

@[simp] theorem initializeServerLogs_servers (u s : String) (n : Nat) (st : LCState) :
    (initializeServerLogs u s n st).servers = st.servers := by
  simp only [initializeServerLogs]
  split_ifs <;> rfl

theorem initializeServerLogs_registry_isSome (u s : String) (n : Nat) (st : LCState)
    (h : (objGet u st.registry).isSome = true) :
    (initializeServerLogs u s n st).registry = st.registry := by
  simp only [initializeServerLogs]
  split_ifs <;> simp_all

@[simp] theorem installUserPackages_registry (env : StartEnv) (u s : String)
    (pkgs : List String) (st : LCState) :
    (installUserPackages env u s pkgs st).registry = st.registry := by
  cases h : env.userInstall with
  | ok pr =>
    obtain ⟨out, err⟩ := pr
    simp only [installUserPackages, h]
    split_ifs <;> simp
  | error e => simp [installUserPackages, h]

@[simp] theorem installUserPackages_spawned (env : StartEnv) (u s : String)
    (pkgs : List String) (st : LCState) :
    (installUserPackages env u s pkgs st).spawned = st.spawned := by
  cases h : env.userInstall with
  | ok pr =>
    obtain ⟨out, err⟩ := pr
    simp only [installUserPackages, h]
    split_ifs <;> simp
  | error e => simp [installUserPackages, h]

@[simp] theorem installUserPackages_killed (env : StartEnv) (u s : String)
    (pkgs : List String) (st : LCState) :
    (installUserPackages env u s pkgs st).killed = st.killed := by
  cases h : env.userInstall with
  | ok pr =>
    obtain ⟨out, err⟩ := pr
    simp only [installUserPackages, h]
    split_ifs <;> simp
  | error e => simp [installUserPackages, h]

@[simp] theorem installUserPackages_procState (env : StartEnv) (u s : String)
    (pkgs : List String) (st : LCState) :
    (installUserPackages env u s pkgs st).procState = st.procState := by
  cases h : env.userInstall with
  | ok pr =>
    obtain ⟨out, err⟩ := pr
    simp only [installUserPackages, h]
    split_ifs <;> simp
  | error e => simp [installUserPackages, h]

theorem startPrep_spawned (env : StartEnv) (sid u : String) (server : ServerRec)
    (st : LCState) : (startPrep env sid u server st).spawned = st.spawned := by
  simp only [startPrep]
  split_ifs <;> simp

theorem startPrep_killed (env : StartEnv) (sid u : String) (server : ServerRec)
    (st : LCState) : (startPrep env sid u server st).killed = st.killed := by
  simp only [startPrep]
  split_ifs <;> simp

theorem startPrep_procState (env : StartEnv) (sid u : String) (server : ServerRec)
    (st : LCState) : (startPrep env sid u server st).procState = st.procState := by
  simp only [startPrep]
  split_ifs <;> simp

/-! ## C1: start against a live registry handle is not refused -/

/-- C1 counterexample: child 7 is registered live for (`alice`, `srv1`), yet
`/start-server` is accepted (no AlreadyRunning refusal exists in the code),
a second child (pid 42) is spawned, and the registry entry is overwritten —
without the first child ever being killed. -/
theorem C1_already_running_counterexample :
    regGet "alice" "srv1" runningState.registry = some 7 ∧
    (startServerHandler sampleEnv "alice" false none "srv1" (some sampleServer)
        runningState).1 =
      RouteRes.redirectOk "جاري تشغيل السيرفر... تحقق من الكونسول لمتابعة العملية" ∧
    (startServerHandler sampleEnv "alice" false none "srv1" (some sampleServer)
        runningState).2.spawned = [42] ∧
    regGet "alice" "srv1"
      (startServerHandler sampleEnv "alice" false none "srv1" (some sampleServer)
        runningState).2.registry = some 42 ∧
    (startServerHandler sampleEnv "alice" false none "srv1" (some sampleServer)
        runningState).2.killed = [] := by
  refine ⟨by decide, by decide, by decide, by decide, by decide⟩

theorem startBG_spawn_fields (env : StartEnv) (hmf : env.mainFileExists = true)
    (hpj : env.packageJsonExists = false) (sid u : String) (server : ServerRec)
    (st : LCState) :
    (startServerInBackground env sid u server st).spawned =
      (startPrep env sid u server st).spawned ++ [env.newPid] ∧
    regGet u sid (startServerInBackground env sid u server st).registry =
      some env.newPid ∧
    (startServerInBackground env sid u server st).killed =
      (startPrep env sid u server st).killed ∧
    (startServerInBackground env sid u server st).procState =
      setProcessState u sid true (some env.now)
        (startPrep env sid u server st).procState := by
  simp only [startServerInBackground, hmf, hpj]
  refine ⟨by simp, ?_, by simp, by simp⟩
  simp [regGet_regSetEntry_self]

/-- C1 (amended): `start` performs no registry check at all: when a live
handle `pid` is registered for the key and the start sequence reaches the
spawn step, the request is acknowledged with the usual success redirect, a
second child process is spawned, and the registry entry is overwritten with
the new pid — the old process is never killed (it is orphaned). -/
theorem C1_start_overwrites_live_handle (env0 : StartEnv) (u sName sid : String)
    (users : List (String × PermFlags)) (files : FileMap) (pid : Nat)
    (st0 : LCState) :
    (startServerHandler { env0 with mainFileExists := true, packageJsonExists := false }
        u false none sid (some ⟨sid, sName, u, false, users, files, []⟩)
        { st0 with registry := regSetEntry u sid pid st0.registry }).1 =
      RouteRes.redirectOk "جاري تشغيل السيرفر... تحقق من الكونسول لمتابعة العملية" ∧
    regGet u sid
      (startServerHandler { env0 with mainFileExists := true, packageJsonExists := false }
        u false none sid (some ⟨sid, sName, u, false, users, files, []⟩)
        { st0 with registry := regSetEntry u sid pid st0.registry }).2.registry =
      some env0.newPid ∧
    (startServerHandler { env0 with mainFileExists := true, packageJsonExists := false }
        u false none sid (some ⟨sid, sName, u, false, users, files, []⟩)
        { st0 with registry := regSetEntry u sid pid st0.registry }).2.spawned =
      st0.spawned ++ [env0.newPid] ∧
    (startServerHandler { env0 with mainFileExists := true, packageJsonExists := false }
        u false none sid (some ⟨sid, sName, u, false, users, files, []⟩)
        { st0 with registry := regSetEntry u sid pid st0.registry }).2.killed =
      st0.killed := by
  have hacc : ensureServerAccess u false u
      (some ⟨sid, sName, u, false, users, files, []⟩) = none := by
    simp [ensureServerAccess]
  have hred : startServerHandler
      { env0 with mainFileExists := true, packageJsonExists := false }
      u false none sid (some ⟨sid, sName, u, false, users, files, []⟩)
      { st0 with registry := regSetEntry u sid pid st0.registry } =
      (RouteRes.redirectOk "جاري تشغيل السيرفر... تحقق من الكونسول لمتابعة العملية",
        startServerInBackground
          { env0 with mainFileExists := true, packageJsonExists := false }
          sid u ⟨sid, sName, u, false, users, files, []⟩
          { st0 with registry := regSetEntry u sid pid st0.registry }) := by
    simp [startServerHandler, Option.getD_none, hacc]
  obtain ⟨hs, hr, hk, _⟩ := startBG_spawn_fields
    { env0 with mainFileExists := true, packageJsonExists := false } rfl rfl sid u
    ⟨sid, sName, u, false, users, files, []⟩
    { st0 with registry := regSetEntry u sid pid st0.registry }
  rw [hred]
  refine ⟨rfl, hr, ?_, ?_⟩
  · rw [hs, startPrep_spawned]
  · rw [hk, startPrep_killed]

/-! ## C6: working-directory cleanup failures -/

/-- C6 counterexample: in `/stop-server` the directory removal
(`fs.removeSync`, src/db.js:4963) is not guarded by any try/catch: when it
fails, the operation does NOT continue to completion — the broadcast to
viewers never happens (`sent` stays empty) and the failure escapes to the
caller instead of a redirect. -/
theorem C6_cleanup_failure_counterexample :
    (stopServerHandler true "t" 0 "alice" false none "srv1" sampleServer
        runningState).1 = Except.error "fs.removeSync failed" ∧
    (stopServerHandler true "t" 0 "alice" false none "srv1" sampleServer
        runningState).2.sent = [] ∧
    (stopServerHandler false "t" 0 "alice" false none "srv1" sampleServer
        runningState).1 = Except.ok (RouteRes.redirectOk "تم إيقاف السيرفر بنجاح") := by
  refine ⟨rfl, by decide, rfl⟩

/-- C6 (amended): a failure to remove the working directory is non-fatal on
the start-preparation path (the start still completes and spawns), on the
kill path (the handler still completes with the success redirect), on the
restart path and on the process-exit path (identical behaviour with or
without the failure) — but on the `stop` path and in the spawn-`error`
handler the unguarded `fs.removeSync` lets the failure escape before the
viewer broadcast, so those two operations do not run to completion and the
failure propagates. -/
theorem C6_cleanup_failure_fatality (env0 : StartEnv) (ts : String) (now : Nat)
    (code : Int) (emsg : String) (u sName sid : String)
    (users : List (String × PermFlags)) (files : FileMap)
    (settings : List (String × String)) (pid : Nat) (st0 st : LCState) :
    -- start: the initial cleanup failure is tolerated, the start still spawns
    ((startServerInBackground
        { env0 with
          dirExisted := true, initialRemoveFails := true,
          mainFileExists := true, packageJsonExists := false }
        sid u ⟨sid, sName, u, false, users, files, settings⟩ st0).spawned =
      st0.spawned ++ [env0.newPid] ∧
     regGet u sid (startServerInBackground
        { env0 with
          dirExisted := true, initialRemoveFails := true,
          mainFileExists := true, packageJsonExists := false }
        sid u ⟨sid, sName, u, false, users, files, settings⟩ st0).registry =
      some env0.newPid) ∧
    -- stop: the unguarded removeSync failure escapes before the broadcast
    ((stopServerHandler true ts now u false none sid
        ⟨sid, sName, u, false, users, files, settings⟩
        { st0 with registry := regSetEntry u sid pid st0.registry }).1 =
      Except.error "fs.removeSync failed" ∧
     (stopServerHandler true ts now u false none sid
        ⟨sid, sName, u, false, users, files, settings⟩
        { st0 with registry := regSetEntry u sid pid st0.registry }).2.sent =
      st0.sent) ∧
    -- kill: the asynchronous removal failure is tolerated, the handler
    -- completes with its success redirect
    (killServerHandler true false ts now u false none sid
        ⟨sid, sName, u, false, users, files, settings⟩
        { st0 with registry := regSetEntry u sid pid st0.registry }).1 =
      RouteRes.redirectOk "تم إرسال إشارة الإيقاف القسري بنجاح." ∧
    -- restart: behaviour is independent of the removal failure
    (restartServerHandler true env0 u false none sid
        ⟨sid, sName, u, false, users, files, settings⟩ st =
      restartServerHandler false env0 u false none sid
        ⟨sid, sName, u, false, users, files, settings⟩ st) ∧
    -- process exit: behaviour is independent of the removal failure, and the
    -- handler still reaches its final broadcast
    (processCloseHandler true ts code u sid st =
        processCloseHandler false ts code u sid st ∧
      (processCloseHandler true ts code u sid st).sent =
        st.sent ++ [(u, sid, formatConsoleOutput ts
          ("❌ توقف السيرفر (رمز الخروج: " ++ toString code ++ ")"))]) ∧
    -- spawn-error handler: the unguarded removeSync failure escapes before
    -- the broadcast
    ((processErrorHandler true ts emsg u sid st).1 =
        Except.error "fs.removeSync failed" ∧
      (processErrorHandler true ts emsg u sid st).2.sent = st.sent) := by
  refine ⟨⟨?_, ?_⟩, ⟨?_, ?_⟩, ?_, rfl, ⟨rfl, rfl⟩, ⟨rfl, rfl⟩⟩
  · rw [(startBG_spawn_fields _ rfl rfl sid u _ st0).1, startPrep_spawned]
  · exact (startBG_spawn_fields _ rfl rfl sid u _ st0).2.1
  · have hacc : ensureServerAccess u false u
        (some (⟨sid, sName, u, false, users, files, settings⟩ : ServerRec)) = none := by
      simp [ensureServerAccess]
    simp [stopServerHandler, hacc, regGet_regSetEntry_self]
  · have hacc : ensureServerAccess u false u
        (some (⟨sid, sName, u, false, users, files, settings⟩ : ServerRec)) = none := by
      simp [ensureServerAccess]
    simp [stopServerHandler, hacc, regGet_regSetEntry_self]
  · have hacc : ensureServerAccess u false u
        (some (⟨sid, sName, u, false, users, files, settings⟩ : ServerRec)) = none := by
      simp [ensureServerAccess]
    have hreg : (initializeServerLogs u sid now
        { st0 with registry := regSetEntry u sid pid st0.registry }).registry =
        regSetEntry u sid pid st0.registry :=
      initializeServerLogs_registry_isSome _ _ _ _
        (by simp [regSetEntry, objGet_objSet_self])
    simp [killServerHandler, hacc, hreg, regGet_regSetEntry_self]

/-! ## Distinguishing formatted console lines by their last character -/

theorem dropWhile_append_singleton (p : Char → Bool) (c : Char)
    (hc : p c = false) :
    ∀ (x : List Char), ∃ y, List.dropWhile p (x ++ [c]) = y ++ [c]
  | [] => ⟨[], by simp [List.dropWhile_cons, hc]⟩
  | a :: x => by
    by_cases ha : p a = true
    · obtain ⟨y, hy⟩ := dropWhile_append_singleton p c hc x
      exact ⟨y, by simp [List.dropWhile_cons, ha, hy]⟩
    · exact ⟨a :: x, by simp [List.dropWhile_cons, ha]⟩

theorem trimL_getLast {c : Char} (hc : isWsp c = false) (x : List Char) :
    (trimL (x ++ [c])).getLast? = some c := by
  obtain ⟨y, hy⟩ := dropWhile_append_singleton isWsp c hc x
  unfold trimL
  rw [hy]
  have h1 : (y ++ [c]).reverse = c :: y.reverse := by simp
  rw [h1, List.dropWhile_cons, if_neg (by simp [hc])]
  have h2 : (c :: y.reverse).reverse = y ++ [c] := by simp
  rw [h2]
  exact List.getLast?_concat y

theorem eq_append_singleton_of_getLast :
    ∀ {l : List Char} {c : Char}, l.getLast? = some c → ∃ y, l = y ++ [c]
  | [], c, h => by simp at h
  | [a], c, h => by
    refine ⟨[], ?_⟩
    simp only [List.getLast?_singleton, Option.some.injEq] at h
    rw [h]
    rfl
  | a :: b :: t, c, h => by
    rw [List.getLast?_cons_cons] at h
    obtain ⟨y, hy⟩ := eq_append_singleton_of_getLast h
    exact ⟨a :: y, by rw [List.cons_append, ← hy]⟩

theorem append_singleton_ne {t x1 x2 : List Char} {c1 c2 : Char} (h : c1 ≠ c2) :
    x1 ++ c1 :: t ≠ x2 ++ c2 :: t := by
  intro heq
  have hrev := congrArg List.reverse heq
  simp only [List.reverse_append, List.reverse_cons, List.append_assoc] at hrev
  have := List.append_cancel_left hrev
  rw [List.cons_append, List.cons_append] at this
  exact h (List.head_eq_of_cons_eq this)

theorem fmt_data_shape (ts log : String) :
    ∃ P, (formatConsoleOutput ts log).data =
      P ++ (trimL log.toList ++ "</span>".data) := by
  obtain ⟨P, hP⟩ : ∃ P : String, formatConsoleOutput ts log =
      P ++ (String.mk (trimL log.toList) ++ "</span>") := ⟨_, rfl⟩
  exact ⟨P.data, by rw [hP, String.data_append, String.data_append]⟩

/-- Two formatted console lines whose trimmed raw texts end in different
characters are distinct, whatever the timestamps are. -/
theorem formatConsoleOutput_ne {ts1 ts2 log1 log2 : String} {c1 c2 : Char}
    (h1 : (trimL log1.toList).getLast? = some c1)
    (h2 : (trimL log2.toList).getLast? = some c2) (hne : c1 ≠ c2) :
    formatConsoleOutput ts1 log1 ≠ formatConsoleOutput ts2 log2 := by
  intro heq
  obtain ⟨P1, hP1⟩ := fmt_data_shape ts1 log1
  obtain ⟨P2, hP2⟩ := fmt_data_shape ts2 log2
  obtain ⟨y1, hy1⟩ := eq_append_singleton_of_getLast h1
  obtain ⟨y2, hy2⟩ := eq_append_singleton_of_getLast h2
  have hd := congrArg String.data heq
  rw [hP1, hP2, hy1, hy2] at hd
  simp only [List.append_assoc, List.singleton_append, List.cons_append] at hd
  rw [← List.append_assoc P1 y1, ← List.append_assoc P2 y2] at hd
  exact append_singleton_ne hne hd

/-! ## Console and registry shape of the start sequence -/

@[simp] theorem objGet_pushMem_self (u s l : String) (st : LCState) :
    objGet (logKey u s) (pushMem u s l st).consoleMem =
      some ((objGet (logKey u s) st.consoleMem).getD [] ++ [l]) := by
  simp only [pushMem]
  exact objGet_objSet_self _ _ _

theorem installUserPackages_console_mem (env : StartEnv) (u s : String)
    (pkgs : List String) (st : LCState) (l : String)
    (hl : l ∈ (objGet (logKey u s)
      (installUserPackages env u s pkgs st).consoleMem).getD []) :
    l ∈ (objGet (logKey u s) st.consoleMem).getD [] ∨
    l = formatConsoleOutput env.ts
      ("📦 جاري تثبيت الحزم المحددة من إعدادات بدء التشغيل: " ++
        String.intercalate ", " pkgs ++ "...") ∨
    l = formatConsoleOutput env.ts
      "✅ تم تثبيت الحزم المحددة من إعدادات بدء التشغيل بنجاح." ∨
    (∃ out err, env.userInstall = Except.ok (out, err) ∧
      (l = formatConsoleOutput env.ts out ∨ l = formatConsoleOutput env.ts err)) ∨
    (∃ e, env.userInstall = Except.error e ∧
      l = formatConsoleOutput env.ts
        ("❌ خطأ في تثبيت الحزم المحددة من إعدادات بدء التشغيل: " ++ e)) := by
  cases h : env.userInstall with
  | ok pr =>
    obtain ⟨out, err⟩ := pr
    simp only [installUserPackages, h] at hl
    split_ifs at hl <;>
      simp only [broadcast_consoleMem, persistLine_consoleMem, objGet_pushMem_self,
        Option.getD_some, List.mem_append, List.mem_singleton] at hl
    · rcases hl with (((hb | hh) | ho) | he) | hd
      · exact Or.inl hb
      · exact Or.inr (Or.inl hh)
      · exact Or.inr (Or.inr (Or.inr (Or.inl ⟨out, err, rfl, Or.inl ho⟩)))
      · exact Or.inr (Or.inr (Or.inr (Or.inl ⟨out, err, rfl, Or.inr he⟩)))
      · exact Or.inr (Or.inr (Or.inl hd))
    · rcases hl with ((hb | hh) | he) | hd
      · exact Or.inl hb
      · exact Or.inr (Or.inl hh)
      · exact Or.inr (Or.inr (Or.inr (Or.inl ⟨out, err, rfl, Or.inr he⟩)))
      · exact Or.inr (Or.inr (Or.inl hd))
    · rcases hl with ((hb | hh) | ho) | hd
      · exact Or.inl hb
      · exact Or.inr (Or.inl hh)
      · exact Or.inr (Or.inr (Or.inr (Or.inl ⟨out, err, rfl, Or.inl ho⟩)))
      · exact Or.inr (Or.inr (Or.inl hd))
    · rcases hl with (hb | hh) | hd
      · exact Or.inl hb
      · exact Or.inr (Or.inl hh)
      · exact Or.inr (Or.inr (Or.inl hd))
  | error e =>
    simp only [installUserPackages, h] at hl
    simp only [broadcast_consoleMem, persistLine_consoleMem, objGet_pushMem_self,
      Option.getD_some, List.mem_append, List.mem_singleton] at hl
    rcases hl with (hb | hh) | hf
    · exact Or.inl hb
    · exact Or.inr (Or.inl hh)
    · exact Or.inr (Or.inr (Or.inr (Or.inr ⟨e, rfl, hf⟩)))

attribute [irreducible] formatConsoleOutput

attribute [irreducible] initializeServerLogs

theorem startPrep_console_mem (env : StartEnv) (sid u : String)
    (server : ServerRec) (st : LCState) (l : String)
    (hl : l ∈ (objGet (logKey u sid)
      (startPrep env sid u server st).consoleMem).getD []) :
    l = formatConsoleOutput env.ts "🚀 جاري تجهيز السيرفر... برجاء الانتظار" ∨
    l = formatConsoleOutput env.ts
      ("📦 جاري تثبيت الحزم المحددة من إعدادات بدء التشغيل: " ++
        String.intercalate ", "
          (splitWs (jsTrim ((objGet "packages" server.startupSettings).getD ""))) ++
        "...") ∨
    l = formatConsoleOutput env.ts
      "✅ تم تثبيت الحزم المحددة من إعدادات بدء التشغيل بنجاح." ∨
    (∃ out err, env.userInstall = Except.ok (out, err) ∧
      (l = formatConsoleOutput env.ts out ∨ l = formatConsoleOutput env.ts err)) ∨
    (∃ e, env.userInstall = Except.error e ∧
      l = formatConsoleOutput env.ts
        ("❌ خطأ في تثبيت الحزم المحددة من إعدادات بدء التشغيل: " ++ e)) := by
  simp only [startPrep] at hl
  split_ifs at hl
  all_goals
    first
      | (simp only [broadcast_consoleMem, persistLine_consoleMem, objGet_pushMem_self,
           objGet_objSet_self, Option.getD_some, List.nil_append,
           List.mem_singleton] at hl
         exact Or.inl hl)
      | (have hres := installUserPackages_console_mem env u sid _ _ l hl
         rcases hres with hb | rest
         · simp only [broadcast_consoleMem, persistLine_consoleMem, objGet_pushMem_self,
             objGet_objSet_self, Option.getD_some, List.nil_append,
             List.mem_singleton] at hb
           exact Or.inl hb
         · exact Or.inr rest)

theorem initializeServerLogs_regGet (u s : String) (n : Nat) (st : LCState)
    (u' s' : String) :
    regGet u' s' (initializeServerLogs u s n st).registry =
      regGet u' s' st.registry := by
  have hbase : ∀ (reg : List (String × List (String × Nat))),
      objGet u reg = none →
      regGet u' s' (objSet u ([] : List (String × Nat)) reg) = regGet u' s' reg := by
    intro reg hnone
    by_cases hu : (u' == u) = true
    · have h : u' = u := by simpa using hu
      subst h
      unfold regGet
      rw [objGet_objSet_self, hnone]
      rfl
    · have hu' : (u' == u) = false := by
        cases hx : (u' == u)
        · rfl
        · exact absurd hx hu
      unfold regGet
      rw [objGet_objSet_ne hu']
  simp only [initializeServerLogs]
  split_ifs with h1 h2 h3 <;>
    first
      | rfl
      | (have h2' : ¬ (objGet u st.registry).isSome = true := by assumption
         cases hx : objGet u st.registry with
         | none => exact hbase st.registry hx
         | some v => exact absurd (by rw [hx]; rfl) h2')

theorem startPrep_regGet (env : StartEnv) (sid u : String) (server : ServerRec)
    (st : LCState) (u' s' : String) :
    regGet u' s' (startPrep env sid u server st).registry =
      regGet u' s' st.registry := by
  simp only [startPrep]
  split_ifs <;> simp [initializeServerLogs_regGet]

theorem toList_append_last (a m b : String) (binit : List Char) (c : Char)
    (hb : b.toList = binit ++ [c]) :
    (a ++ m ++ b).toList = (a.toList ++ (m.toList ++ binit)) ++ [c] := by
  have hsplit : (a ++ m ++ b).toList = a.toList ++ m.toList ++ b.toList := by
    simp [String.toList, String.data_append]
  rw [hsplit, hb]
  simp [List.append_assoc]

theorem trim_last_of_suffix (a m b : String) (binit : List Char) (c : Char)
    (hb : b.toList = binit ++ [c]) (hc : isWsp c = false) :
    (trimL (a ++ m ++ b).toList).getLast? = some c := by
  rw [toList_append_last a m b binit c hb]
  exact trimL_getLast hc _

/-- C5: a `start` whose resolved entry script is absent from the materialized
working directory aborts before spawning: no child process is spawned, the
registry and the persisted process state are untouched, and exactly one fatal
"entry script missing" console line is produced.  The two auxiliary
hypotheses only rule out the degenerate case in which the tenant-controlled
npm-install output text happens to coincide with the fatal line itself. -/
theorem C5_entry_script_missing (env : StartEnv) (sid u : String)
    (server : ServerRec) (st : LCState)
    (hmf : env.mainFileExists = false)
    (hok : ∀ out err, env.userInstall = Except.ok (out, err) →
      formatConsoleOutput env.ts out ≠
        formatConsoleOutput env.ts
          ("❌ ملف التشغيل الرئيسي (" ++
            settingOr "mainFile" "index.js" server.startupSettings ++ ") غير موجود") ∧
      formatConsoleOutput env.ts err ≠
        formatConsoleOutput env.ts
          ("❌ ملف التشغيل الرئيسي (" ++
            settingOr "mainFile" "index.js" server.startupSettings ++ ") غير موجود"))
    (herr : ∀ e, env.userInstall = Except.error e →
      formatConsoleOutput env.ts
        ("❌ خطأ في تثبيت الحزم المحددة من إعدادات بدء التشغيل: " ++ e) ≠
      formatConsoleOutput env.ts
        ("❌ ملف التشغيل الرئيسي (" ++
          settingOr "mainFile" "index.js" server.startupSettings ++ ") غير موجود")) :
    (startServerInBackground env sid u server st).spawned = st.spawned ∧
    (startServerInBackground env sid u server st).procState = st.procState ∧
    (∀ u' s', regGet u' s' (startServerInBackground env sid u server st).registry =
      regGet u' s' st.registry) ∧
    ((objGet (logKey u sid)
        (startServerInBackground env sid u server st).consoleMem).getD []).count
      (formatConsoleOutput env.ts
        ("❌ ملف التشغيل الرئيسي (" ++
          settingOr "mainFile" "index.js" server.startupSettings ++ ") غير موجود")) = 1 := by
  have hrun : startServerInBackground env sid u server st =
      broadcast u sid
        (formatConsoleOutput env.ts
          ("❌ ملف التشغيل الرئيسي (" ++
            settingOr "mainFile" "index.js" server.startupSettings ++ ") غير موجود"))
        (persistLine env.now u sid
          (formatConsoleOutput env.ts
            ("❌ ملف التشغيل الرئيسي (" ++
              settingOr "mainFile" "index.js" server.startupSettings ++ ") غير موجود"))
          (pushMem u sid
            (formatConsoleOutput env.ts
              ("❌ ملف التشغيل الرئيسي (" ++
                settingOr "mainFile" "index.js" server.startupSettings ++ ") غير موجود"))
            (startPrep env sid u server st))) := by
    simp only [startServerInBackground, hmf, if_true]
  rw [hrun]
  refine ⟨?_, ?_, ?_, ?_⟩
  · simp [startPrep_spawned]
  · simp [startPrep_procState]
  · intro u' s'
    simp [startPrep_regGet]
  · simp only [broadcast_consoleMem, persistLine_consoleMem, objGet_pushMem_self,
      Option.getD_some]
    rw [List.count_append]
    have hlastErr :
        (trimL ("❌ ملف التشغيل الرئيسي (" ++
          settingOr "mainFile" "index.js" server.startupSettings ++
          ") غير موجود").toList).getLast? = some 'د' :=
      trim_last_of_suffix _ _ _ (") غير موجو").toList 'د' (by decide) (by decide)
    have hnm : formatConsoleOutput env.ts
        ("❌ ملف التشغيل الرئيسي (" ++
          settingOr "mainFile" "index.js" server.startupSettings ++ ") غير موجود") ∉
        (objGet (logKey u sid)
          (startPrep env sid u server st).consoleMem).getD [] := by
      intro hm
      rcases startPrep_console_mem env sid u server st _ hm with
        h0 | h0 | h0 | ⟨out, err, hui, h0 | h0⟩ | ⟨e, hui, h0⟩
      · exact formatConsoleOutput_ne hlastErr
          (show (trimL ("🚀 جاري تجهيز السيرفر... برجاء الانتظار").toList).getLast? =
            some 'ر' by decide) (by decide) h0
      · exact formatConsoleOutput_ne hlastErr
          (trim_last_of_suffix _ _ _ ("..").toList '.' (by decide) (by decide))
          (by decide) h0
      · exact formatConsoleOutput_ne hlastErr
          (show (trimL ("✅ تم تثبيت الحزم المحددة من إعدادات بدء التشغيل بنجاح.").toList).getLast? =
            some '.' by decide) (by decide) h0
      · exact (hok out err hui).1 h0.symm
      · exact (hok out err hui).2 h0.symm
      · exact herr e hui h0.symm
    rw [List.count_eq_zero.mpr hnm]
    simp

theorem C5_entry_script_missing_witness :
    ((objGet (logKey "alice" "srv1")
        (startServerInBackground
          { sampleEnv with
            mainFileExists := false,
            userInstall := Except.ok ("installed!", "oops!") }
          "srv1" "alice" sampleServer emptyState).consoleMem).getD []).count
      (formatConsoleOutput
        ({ sampleEnv with
           mainFileExists := false,
           userInstall := Except.ok ("installed!", "oops!") } : StartEnv).ts
        ("❌ ملف التشغيل الرئيسي (" ++
          settingOr "mainFile" "index.js" sampleServer.startupSettings ++
          ") غير موجود")) = 1 :=
  (C5_entry_script_missing
    { sampleEnv with
      mainFileExists := false,
      userInstall := Except.ok ("installed!", "oops!") }
    "srv1" "alice" sampleServer emptyState rfl
    (fun out err h => by
      have hout : out = "installed!" := by
        cases h
        rfl
      have herr2 : err = "oops!" := by
        cases h
        rfl
      subst hout
      subst herr2
      constructor
      · exact formatConsoleOutput_ne
          (show (trimL ("installed!").toList).getLast? = some '!' by decide)
          (trim_last_of_suffix _ _ _ (") غير موجو").toList 'د' (by decide) (by decide))
          (by decide)
      · exact formatConsoleOutput_ne
          (show (trimL ("oops!").toList).getLast? = some '!' by decide)
          (trim_last_of_suffix _ _ _ (") غير موجو").toList 'د' (by decide) (by decide))
          (by decide))
    (fun e h => Except.noConfusion h)).2.2.2

theorem applyAppends_drop :
    ∀ (l db : List LogRecord), db.length ≤ 5000 →
      applyAppends l db = (db ++ l).drop (db.length + l.length - 5000)
  | [], db, h => by
    have h0 : db.length + ([] : List LogRecord).length - 5000 = 0 := by
      simp only [List.length_nil]
      omega
    rw [h0]
    simp [applyAppends]
  | r :: t, db, h => by
    have hstep : applyAppends (r :: t) db =
        applyAppends t (saveConsoleLog r.timestamp r.userId r.serverId r.content db) :=
      rfl
    rw [hstep]
    have hlapp : (db ++ [r]).length = db.length + 1 := by simp
    by_cases hlen : 5000 < db.length + 1
    · have hdb : db.length = 5000 := by omega
      have hsave : saveConsoleLog r.timestamp r.userId r.serverId r.content db
          = (db ++ [r]).drop 1 := by
        unfold saveConsoleLog
        rw [if_pos (by rw [hlapp, hdb]; omega)]
        rw [hlapp, hdb]
      have hlen1 : ((db ++ [r]).drop 1).length = 5000 := by
        simp [hdb]
      rw [hsave, applyAppends_drop t ((db ++ [r]).drop 1) (by rw [hlen1]), hlen1]
      have harith1 : 5000 + t.length - 5000 = t.length := by omega
      have hassoc : (db ++ r :: t).drop 1 = (db ++ [r]).drop 1 ++ t := by
        conv_lhs => rw [show db ++ r :: t = (db ++ [r]) ++ t by simp]
        exact List.drop_append_of_le_length (by simp)
      have harith2 : db.length + (r :: t).length - 5000 = t.length + 1 := by
        simp only [List.length_cons]
        omega
      rw [harith1, ← hassoc, List.drop_drop, harith2, Nat.add_comm 1 t.length]
    · have hsave : saveConsoleLog r.timestamp r.userId r.serverId r.content db
          = db ++ [r] := by
        unfold saveConsoleLog
        rw [if_neg (by rw [hlapp]; omega)]
      rw [hsave, applyAppends_drop t (db ++ [r]) (by rw [hlapp]; omega)]
      have hassoc : (db ++ [r]) ++ t = db ++ r :: t := by simp
      have harith : (db ++ [r]).length + t.length - 5000 =
          db.length + (r :: t).length - 5000 := by
        rw [hlapp]
        simp only [List.length_cons]
        omega
      rw [hassoc, harith]

/-- C7 counterexample: the 5000-row cap of `saveConsoleLog` is global across
all (user, server) pairs, so a flood of appends for pair B evicts pair A's
most recent (and only) row even though pair A never exceeded any bound; and
`slice(-0)` returns the whole array, so `recent` with limit 0 returns one
entry instead of zero. -/
theorem C7_fifo_eviction_counterexample :
    applyAppends
      ((⟨"A", "s", 0, "hello"⟩ : LogRecord) ::
        List.replicate 5000 (⟨"B", "s", 1, "x"⟩ : LogRecord)) [] =
      List.replicate 5000 (⟨"B", "s", 1, "x"⟩ : LogRecord) ∧
    getRecentConsoleLogs "A" "s" 100
      (applyAppends
        ((⟨"A", "s", 0, "hello"⟩ : LogRecord) ::
          List.replicate 5000 (⟨"B", "s", 1, "x"⟩ : LogRecord)) []) = [] ∧
    getRecentConsoleLogs "A" "s" 0
      (applyAppends [(⟨"A", "s", 0, "hello"⟩ : LogRecord)] []) = ["hello"] := by
  have h1 : applyAppends
      ((⟨"A", "s", 0, "hello"⟩ : LogRecord) ::
        List.replicate 5000 (⟨"B", "s", 1, "x"⟩ : LogRecord)) [] =
      List.replicate 5000 (⟨"B", "s", 1, "x"⟩ : LogRecord) := by
    rw [applyAppends_drop _ [] (by simp)]
    have hlen : (([] : List LogRecord).length +
        ((⟨"A", "s", 0, "hello"⟩ : LogRecord) ::
          List.replicate 5000 (⟨"B", "s", 1, "x"⟩ : LogRecord)).length) - 5000 = 1 := by
      simp only [List.length_nil, List.length_cons, List.length_replicate]
    rw [hlen]
    rfl
  refine ⟨h1, ?_, by decide⟩
  rw [h1]
  unfold getRecentConsoleLogs
  have hfil : (List.replicate 5000 (⟨"B", "s", 1, "x"⟩ : LogRecord)).filter
      (fun r => r.userId == "A" && r.serverId == "s") = [] := by
    apply List.filter_eq_nil_iff.mpr
    intro a ha
    rw [List.eq_of_mem_replicate ha]
    decide
  rw [hfil]
  rfl

/-- C7 amended: for a single (user, server) pair appending into an empty
persistence table, eviction is FIFO — only the oldest rows beyond the
5000-row cap are dropped — and for every limit N ≥ 1, `recent` returns the
newest N (or fewer) retained entries in chronological order. -/
theorem C7_fifo_single_pair (u s : String) (l : List LogRecord) (N : Nat)
    (hN : N ≠ 0)
    (hall : ∀ r ∈ l, r.userId = u ∧ r.serverId = s)
    (hsort : List.Sorted (fun a b : LogRecord => a.timestamp ≤ b.timestamp) l) :
    applyAppends l [] = l.drop (l.length - 5000) ∧
    getRecentConsoleLogs u s N (applyAppends l []) =
      (lastN N (l.drop (l.length - 5000))).map (fun r => r.content) := by
  have h1 : applyAppends l [] = l.drop (l.length - 5000) := by
    rw [applyAppends_drop l [] (by simp)]
    simp
  refine ⟨h1, ?_⟩
  rw [h1]
  unfold getRecentConsoleLogs sliceNeg lastN
  have hfilter : (l.drop (l.length - 5000)).filter
      (fun r => r.userId == u && r.serverId == s) = l.drop (l.length - 5000) := by
    apply List.filter_eq_self.mpr
    intro r hr
    obtain ⟨hu, hs⟩ := hall r ((List.drop_sublist _ _).subset hr)
    simp [hu, hs]
  rw [hfilter]
  have hsorted : List.Sorted (fun a b : LogRecord => a.timestamp ≤ b.timestamp)
      (l.drop (l.length - 5000)) :=
    List.Pairwise.sublist (List.drop_sublist _ _) hsort
  rw [List.Sorted.insertionSort_eq hsorted, if_neg hN]

theorem C7_fifo_single_pair_witness :
    applyAppends
      [(⟨"A", "s", 0, "one"⟩ : LogRecord), (⟨"A", "s", 1, "two"⟩ : LogRecord)] [] =
      ([(⟨"A", "s", 0, "one"⟩ : LogRecord), (⟨"A", "s", 1, "two"⟩ : LogRecord)]).drop
        (([(⟨"A", "s", 0, "one"⟩ : LogRecord),
          (⟨"A", "s", 1, "two"⟩ : LogRecord)]).length - 5000) ∧
    getRecentConsoleLogs "A" "s" 1
      (applyAppends
        [(⟨"A", "s", 0, "one"⟩ : LogRecord), (⟨"A", "s", 1, "two"⟩ : LogRecord)] []) =
      (lastN 1
        (([(⟨"A", "s", 0, "one"⟩ : LogRecord), (⟨"A", "s", 1, "two"⟩ : LogRecord)]).drop
          (([(⟨"A", "s", 0, "one"⟩ : LogRecord),
            (⟨"A", "s", 1, "two"⟩ : LogRecord)]).length - 5000))).map
        (fun r => r.content) :=
  C7_fifo_single_pair "A" "s"
    [(⟨"A", "s", 0, "one"⟩ : LogRecord), (⟨"A", "s", 1, "two"⟩ : LogRecord)] 1
    (by decide) (by decide) (by decide)

/-! ## Map-operation lemmas for the rename handler -/

theorem mapGet_mapSet_self (k : List Char) (v : String) :
    ∀ (m : FileMap), mapGet k (mapSet k v m) = some v := by
  have hmap : ∀ (m : FileMap), mapHas k m = true →
      mapGet k (m.map (fun e => if e.1 == k then (k, v) else e)) = some v := by
    intro m
    induction m with
    | nil =>
      intro h
      simp [mapHas] at h
    | cons e m ih =>
      intro h
      by_cases he : (e.1 == k) = true
      · have hfe : (if e.1 == k then (k, v) else e) = (k, v) := by simp [he]
        rw [List.map_cons, hfe]
        unfold mapGet
        rw [List.find?_cons_of_pos _ (by simp)]
        rfl
      · have he' : (e.1 == k) = false := Bool.eq_false_iff.mpr he
        have hfe : (if e.1 == k then (k, v) else e) = e := by simp [he']
        have hm : mapHas k m = true := by
          have : (e.1 == k) || (m.any (fun x => x.1 == k)) = true := by
            simpa [mapHas, List.any_cons] using h
          simpa [mapHas, he'] using this
        rw [List.map_cons, hfe]
        unfold mapGet
        rw [List.find?_cons_of_neg _ (by simp [he'])]
        exact ih hm
  have happ : ∀ (m : FileMap), mapHas k m = false →
      mapGet k (m ++ [(k, v)]) = some v := by
    intro m
    induction m with
    | nil =>
      intro _
      unfold mapGet
      rw [List.nil_append, List.find?_cons_of_pos _ (by simp)]
      rfl
    | cons e m ih =>
      intro h
      have he' : (e.1 == k) = false := by
        by_cases hx : (e.1 == k) = true
        · rw [mapHas, List.any_cons, hx] at h
          simp at h
        · exact Bool.eq_false_iff.mpr hx
      have hm : mapHas k m = false := by
        rw [mapHas, List.any_cons, he'] at h
        simpa [mapHas] using h
      rw [List.cons_append]
      unfold mapGet
      rw [List.find?_cons_of_neg _ (by simp [he'])]
      exact ih hm
  intro m
  unfold mapSet
  cases hx : mapHas k m
  · rw [if_neg Bool.false_ne_true]
    exact happ m hx
  · rw [if_pos rfl]
    exact hmap m hx

theorem mapGet_mapSet_ne (k' k : List Char) (v : String) (hne : k' ≠ k) :
    ∀ (m : FileMap), mapGet k' (mapSet k v m) = mapGet k' m := by
  have hkk' : ((k, v).1 == k') = false := by
    simp only [beq_eq_false_iff_ne]
    exact fun hx => hne hx.symm
  have hmap : ∀ (m : FileMap),
      mapGet k' (m.map (fun e => if e.1 == k then (k, v) else e)) = mapGet k' m := by
    intro m
    induction m with
    | nil => rfl
    | cons e m ih =>
      by_cases he : (e.1 == k) = true
      · have hek : e.1 = k := by simpa using he
        have hfe : (if e.1 == k then (k, v) else e) = (k, v) := by simp [he]
        have h2 : (e.1 == k') = false := by
          rw [hek]
          simpa using hkk'
        rw [List.map_cons, hfe]
        unfold mapGet
        rw [List.find?_cons_of_neg _ (by simp [hkk']),
          List.find?_cons_of_neg _ (by simp [h2])]
        exact ih
      · have he' : (e.1 == k) = false := Bool.eq_false_iff.mpr he
        have hfe : (if e.1 == k then (k, v) else e) = e := by simp [he']
        rw [List.map_cons, hfe]
        cases hk' : (e.1 == k')
        · unfold mapGet
          rw [List.find?_cons_of_neg _ (by simp [hk']),
            List.find?_cons_of_neg _ (by simp [hk'])]
          exact ih
        · unfold mapGet
          rw [List.find?_cons_of_pos _ (by simpa using hk'),
            List.find?_cons_of_pos _ (by simpa using hk')]
  have happ : ∀ (m : FileMap), mapGet k' (m ++ [(k, v)]) = mapGet k' m := by
    intro m
    induction m with
    | nil =>
      unfold mapGet
      rw [List.nil_append, List.find?_cons_of_neg _ (by simpa using hkk')]
    | cons e m ih =>
      rw [List.cons_append]
      cases hk' : (e.1 == k')
      · unfold mapGet
        rw [List.find?_cons_of_neg _ (by simpa using hk'),
          List.find?_cons_of_neg _ (by simpa using hk')]
        exact ih
      · unfold mapGet
        rw [List.find?_cons_of_pos _ (by simpa using hk'),
          List.find?_cons_of_pos _ (by simpa using hk')]
  intro m
  unfold mapSet
  cases hx : mapHas k m
  · rw [if_neg Bool.false_ne_true]
    exact happ m
  · rw [if_pos rfl]
    exact hmap m

theorem mapGet_mapDelete_self (k : List Char) :
    ∀ (m : FileMap), mapGet k (mapDelete k m) = none := by
  intro m
  induction m with
  | nil => rfl
  | cons e m ih =>
    unfold mapDelete at ih ⊢
    rw [List.filter_cons]
    cases he : (e.1 == k)
    · rw [if_pos (by decide)]
      unfold mapGet
      rw [List.find?_cons_of_neg _ (by simp [he])]
      exact ih
    · rw [if_neg (by decide)]
      exact ih

theorem mapGet_mapDelete_ne (k' k : List Char) (hne : k' ≠ k) :
    ∀ (m : FileMap), mapGet k' (mapDelete k m) = mapGet k' m := by
  intro m
  induction m with
  | nil => rfl
  | cons e m ih =>
    unfold mapDelete at ih ⊢
    rw [List.filter_cons]
    cases he : (e.1 == k)
    · rw [if_pos (by decide)]
      cases hk' : (e.1 == k')
      · unfold mapGet
        rw [List.find?_cons_of_neg _ (by simpa using hk'),
          List.find?_cons_of_neg _ (by simpa using hk')]
        exact ih
      · unfold mapGet
        rw [List.find?_cons_of_pos _ (by simpa using hk'),
          List.find?_cons_of_pos _ (by simpa using hk')]
    · rw [if_neg (by decide)]
      have hek : e.1 = k := by simpa using he
      have h2 : (e.1 == k') = false := by
        rw [hek]
        simp only [beq_eq_false_iff_ne]
        exact fun hx => hne hx.symm
      unfold mapGet
      rw [List.find?_cons_of_neg _ (by simpa using h2)]
      exact ih

theorem mapGet_isSome_iff_mem_keys (k : List Char) :
    ∀ (m : FileMap), (mapGet k m).isSome = true ↔ k ∈ mapKeys m := by
  intro m
  induction m with
  | nil => simp [mapGet, mapKeys]
  | cons e m ih =>
    unfold mapKeys at ih ⊢
    rw [List.map_cons, List.mem_cons]
    cases he : (e.1 == k)
    · have hne : ¬ (k = e.1) := by
        intro hx
        rw [hx] at he
        simp at he
      unfold mapGet
      rw [List.find?_cons_of_neg _ (by simpa using he)]
      constructor
      · intro hs
        exact Or.inr (ih.mp hs)
      · intro hmem
        rcases hmem with hmem | hmem
        · exact absurd hmem hne
        · exact ih.mpr hmem
    · have hek : e.1 = k := by simpa using he
      unfold mapGet
      rw [List.find?_cons_of_pos _ (by simpa using he)]
      simp [hek]

/-! ## Prefix arithmetic for the rename handler -/

theorem append_eq_append_cases :
    ∀ (o n s t : List Char), o ++ s = n ++ t →
      (∃ e, n = o ++ e) ∨ (∃ e, o = n ++ e)
  | [], n, _, _, _ => Or.inl ⟨n, rfl⟩
  | o, [], _, _, _ => Or.inr ⟨o, rfl⟩
  | a :: o, b :: n, s, t, heq => by
    have hab : a = b := by
      have := congrArg (fun l => List.head? l) heq
      simpa using this
    have htail : o ++ s = n ++ t := by
      have := congrArg (fun l => List.tail l) heq
      simpa using this
    rcases append_eq_append_cases o n s t htail with ⟨e, he⟩ | ⟨e, he⟩
    · exact Or.inl ⟨e, by rw [hab, he]; rfl⟩
    · exact Or.inr ⟨e, by rw [hab, he]; rfl⟩

theorem count_slash_encodeL : ∀ (p : List Char),
    (encodeL p).count '/' = p.count '/'
  | [] => rfl
  | c :: cs => by
    by_cases hc : (c == '.') = true
    · have hc' : c = '.' := by simpa using hc
      rw [hc', encodeL_cons_dot, List.count_append, count_slash_encodeL cs]
      have hdot : (dotTok.count '/') = 0 := by decide
      rw [hdot]
      simp [List.count_cons]
    · have hc' : (c == '.') = false := Bool.eq_false_iff.mpr hc
      rw [encodeL_cons_of_ne hc', List.count_cons, List.count_cons,
        count_slash_encodeL cs]

theorem splitLastSlash_none_no_slash : ∀ (p : List Char),
    splitLastSlash p = none → ('/' ∈ p → False)
  | [], _, hm => by simp at hm
  | c :: cs, h, hm => by
    rw [show splitLastSlash (c :: cs) =
      (match splitLastSlash cs with
       | some (b, a) => some (c :: b, a)
       | none => if c == '/' then some ([], cs) else none) from rfl] at h
    cases hsp : splitLastSlash cs with
    | some pr =>
      rw [hsp] at h
      simp at h
    | none =>
      rw [hsp] at h
      by_cases hc : (c == '/') = true
      · rw [if_pos hc] at h
        simp at h
      · have hc' : (c == '/') = false := Bool.eq_false_iff.mpr hc
        rcases List.mem_cons.mp hm with hm1 | hm2
        · rw [hm1] at hc'
          simp at hc'
        · exact splitLastSlash_none_no_slash cs hsp hm2

theorem splitLastSlash_some_spec : ∀ (p b a : List Char),
    splitLastSlash p = some (b, a) → p = b ++ '/' :: a ∧ ('/' ∈ a → False)
  | [], b, a, h => by simp [splitLastSlash] at h
  | c :: cs, b, a, h => by
    rw [show splitLastSlash (c :: cs) =
      (match splitLastSlash cs with
       | some (b, a) => some (c :: b, a)
       | none => if c == '/' then some ([], cs) else none) from rfl] at h
    cases hsp : splitLastSlash cs with
    | some pr =>
      obtain ⟨b', a'⟩ := pr
      rw [hsp] at h
      simp only [Option.some.injEq, Prod.mk.injEq] at h
      obtain ⟨hb, ha⟩ := h
      obtain ⟨hcs, hna⟩ := splitLastSlash_some_spec cs b' a' hsp
      subst hb
      subst ha
      exact ⟨by rw [hcs]; rfl, hna⟩
    | none =>
      rw [hsp] at h
      by_cases hc : (c == '/') = true
      · rw [if_pos hc] at h
        simp only [Option.some.injEq, Prod.mk.injEq] at h
        obtain ⟨hb, ha⟩ := h
        subst hb
        subst ha
        have hc' : c = '/' := by simpa using hc
        exact ⟨by rw [hc']; rfl, splitLastSlash_none_no_slash cs hsp⟩
      · rw [if_neg hc] at h
        simp at h

theorem replaceDbl_id : ∀ (l : List Char), ('\\' ∈ l → False) →
    replaceDblBackslash l = l
  | [], _ => rfl
  | [c], _ => rfl
  | c1 :: c2 :: rest, h => by
    have hc1 : (c1 == '\\') = false := by
      simp only [beq_eq_false_iff_ne]
      intro hx
      exact h (by rw [hx]; exact List.mem_cons_self _ _)
    rw [show replaceDblBackslash (c1 :: c2 :: rest) =
      (if c1 == '\\' && c2 == '\\' then '/' :: replaceDblBackslash rest
       else c1 :: replaceDblBackslash (c2 :: rest)) from rfl]
    rw [if_neg (by rw [hc1]; simp)]
    rw [replaceDbl_id (c2 :: rest) (fun hm => h (List.mem_cons_of_mem _ hm))]

theorem mem_trimL {c : Char} {l : List Char} (h : c ∈ trimL l) : c ∈ l := by
  unfold trimL at h
  rw [List.mem_reverse] at h
  have h2 : c ∈ (l.dropWhile isWsp).reverse :=
    (List.dropWhile_sublist _).subset h
  rw [List.mem_reverse] at h2
  exact (List.dropWhile_sublist _).subset h2

theorem begins_false_of_count_lt {eo en : List Char} (k0 : List Char)
    (hcount : en.count '/' ≤ eo.count '/')
    (hk0 : begins (eo ++ ['/']) k0 = true)
    (hk0n : begins (en ++ ['/']) k0 = false) :
    ∀ s t, (eo ++ ['/']) ++ s ≠ (en ++ ['/']) ++ t := by
  intro s t heq
  rcases append_eq_append_cases _ _ _ _ heq with ⟨e, he⟩ | ⟨e, he⟩
  · -- en ++ [/] extends eo ++ [/]
    cases e with
    | nil =>
      rw [List.append_nil] at he
      rw [he, hk0] at hk0n
      simp at hk0n
    | cons x xs =>
      have hlast : ((eo ++ ['/']) ++ (x :: xs)).getLast? = (x :: xs).getLast? :=
        List.getLast?_append_of_ne_nil _ (by simp)
      have hlast2 : (en ++ ['/']).getLast? = some '/' := List.getLast?_concat _
      rw [he, hlast] at hlast2
      obtain ⟨y, hy⟩ := eq_append_singleton_of_getLast hlast2
      have hcnt := congrArg (fun l => List.count '/' l) he
      simp only [List.count_append, hy] at hcnt
      have h1 : List.count '/' ['/'] = 1 := by decide
      rw [h1] at hcnt
      omega
  · -- eo ++ [/] extends en ++ [/]: k0 then also begins with en ++ [/]
    obtain ⟨s0, hs0⟩ := begins_eq_append hk0
    have hb : begins (en ++ ['/']) k0 = true := by
      rw [hs0, he, List.append_assoc]
      exact begins_append_self _ _
    rw [hb] at hk0n
    simp at hk0n

theorem renamedKey_eq (o n s : List Char) : renamedKey o n (o ++ s) = n ++ s := by
  unfold renamedKey
  rw [List.drop_left]

theorem moveFold_get (o n : List Char) (files : FileMap)
    (hINC : ∀ s t : List Char, o ++ s ≠ n ++ t) :
    ∀ (ks : List (List Char)) (m : FileMap),
      (∀ k ∈ ks, begins o k = true) →
      ks.Nodup →
      (∀ k ∈ ks, mapGet k m = mapGet k files) →
      (∀ k ∈ ks, (mapGet k files).isSome = true) →
      ((∀ k ∈ ks,
          mapGet (renamedKey o n k) (ks.foldl (moveStep o n) m) = mapGet k files) ∧
       (∀ k ∈ ks, mapGet k (ks.foldl (moveStep o n) m) = none) ∧
       (∀ q, (∀ k ∈ ks, q ≠ k ∧ q ≠ renamedKey o n k) →
         mapGet q (ks.foldl (moveStep o n) m) = mapGet q m)) := by
  intro ks
  induction ks with
  | nil =>
    intro m _ _ _ _
    exact ⟨by simp, by simp, fun q _ => rfl⟩
  | cons k0 ks ih =>
    intro m h1 h2 h3 h4
    obtain ⟨hk0nin, hksnd⟩ := List.nodup_cons.mp h2
    obtain ⟨s0, hs0⟩ := begins_eq_append (h1 k0 (List.mem_cons_self _ _))
    have htgt0 : renamedKey o n k0 = n ++ s0 := by rw [hs0, renamedKey_eq]
    have hk0tgt : k0 ≠ renamedKey o n k0 := by
      rw [htgt0, hs0]
      exact hINC s0 s0
    have hfold : (k0 :: ks).foldl (moveStep o n) m =
        ks.foldl (moveStep o n) (moveStep o n m k0) := rfl
    have hm1get : ∀ q, q ≠ k0 → q ≠ renamedKey o n k0 →
        mapGet q (moveStep o n m k0) = mapGet q m := by
      intro q hq1 hq2
      unfold moveStep
      rw [mapGet_mapDelete_ne q k0 hq1, mapGet_mapSet_ne q _ _ hq2]
    have h3' : ∀ k ∈ ks, mapGet k (moveStep o n m k0) = mapGet k files := by
      intro k hk
      obtain ⟨sk, hsk⟩ := begins_eq_append (h1 k (List.mem_cons_of_mem _ hk))
      have hkne : k ≠ k0 := fun he => hk0nin (he ▸ hk)
      have hktgt : k ≠ renamedKey o n k0 := by
        rw [hsk, htgt0]
        exact hINC sk s0
      rw [hm1get k hkne hktgt]
      exact h3 k (List.mem_cons_of_mem _ hk)
    obtain ⟨IH1, IH2, IH3⟩ := ih (moveStep o n m k0)
      (fun k hk => h1 k (List.mem_cons_of_mem _ hk)) hksnd h3'
      (fun k hk => h4 k (List.mem_cons_of_mem _ hk))
    refine ⟨?_, ?_, ?_⟩
    · intro k hk
      rcases List.mem_cons.mp hk with hk' | hk'
      · subst hk'
        rw [hfold]
        have hcond : ∀ k' ∈ ks, renamedKey o n k ≠ k' ∧
            renamedKey o n k ≠ renamedKey o n k' := by
          intro k' hk'
          obtain ⟨sk', hsk'⟩ := begins_eq_append (h1 k' (List.mem_cons_of_mem _ hk'))
          have htgt' : renamedKey o n k' = n ++ sk' := by rw [hsk', renamedKey_eq]
          constructor
          · rw [htgt0, hsk']
            exact fun he => hINC sk' s0 he.symm
          · rw [htgt0, htgt']
            intro he
            have hss : s0 = sk' := List.append_cancel_left he
            exact hk0nin (by rw [hs0, hss, ← hsk']; exact hk')
        rw [IH3 (renamedKey o n k) hcond]
        unfold moveStep
        rw [mapGet_mapDelete_ne _ _ (Ne.symm hk0tgt), mapGet_mapSet_self]
        have hsome := h4 k (List.mem_cons_self _ _)
        obtain ⟨c, hc⟩ := Option.isSome_iff_exists.mp hsome
        rw [h3 k (List.mem_cons_self _ _), hc]
        rfl
      · rw [hfold]
        exact IH1 k hk'
    · intro k hk
      rcases List.mem_cons.mp hk with hk' | hk'
      · subst hk'
        rw [hfold]
        have hcond : ∀ k' ∈ ks, k ≠ k' ∧ k ≠ renamedKey o n k' := by
          intro k' hk'
          obtain ⟨sk', hsk'⟩ := begins_eq_append (h1 k' (List.mem_cons_of_mem _ hk'))
          have htgt' : renamedKey o n k' = n ++ sk' := by rw [hsk', renamedKey_eq]
          constructor
          · exact fun he => hk0nin (he ▸ hk')
          · rw [hs0, htgt']
            exact hINC s0 sk'
        rw [IH3 k hcond]
        unfold moveStep
        rw [mapGet_mapDelete_self]
      · rw [hfold]
        exact IH2 k hk'
    · intro q hq
      rw [hfold, IH3 q (fun k hk => hq k (List.mem_cons_of_mem _ hk))]
      obtain ⟨hq1, hq2⟩ := hq k0 (List.mem_cons_self _ _)
      exact hm1get q hq1 hq2

theorem rename_collision_rejected (files : FileMap) (filePath newName : List Char)
    (hvalid : validNewName newName = true)
    (hsrc : mapHas (encodeL filePath) files = true ∨
      (mapKeys files).any (fun k => begins (encodeL filePath ++ ['/']) k) = true)
    (hdst : mapHas
        (encodeL (replaceDblBackslash (joinL (dirnameL filePath) (trimL newName))))
        files = true ∨
      (mapKeys files).any (fun k => begins
        (encodeL (replaceDblBackslash (joinL (dirnameL filePath) (trimL newName))) ++
          ['/']) k) = true) :
    renameFileHandler files filePath newName = (RenameOutcome.destExists, files) := by
  simp only [renameFileHandler, show encodeL ['/'] = ['/'] from rfl]
  rw [if_neg (by rw [hvalid]; simp)]
  have hsrc' : (!mapHas (encodeL filePath) files &&
      !(!mapHas (encodeL filePath) files &&
        (mapKeys files).any (fun k => begins (encodeL filePath ++ ['/']) k))) = false := by
    rcases hsrc with h | h
    · rw [h]
      rfl
    · cases hf : mapHas (encodeL filePath) files
      · rw [h]
        rfl
      · rfl
  rw [if_neg (by rw [hsrc']; simp)]
  have hdst' : (mapHas
      (encodeL (replaceDblBackslash (joinL (dirnameL filePath) (trimL newName))))
      files ||
    (mapKeys files).any (fun k => begins
      (encodeL (replaceDblBackslash (joinL (dirnameL filePath) (trimL newName))) ++
        ['/']) k)) = true := by
    rcases hdst with h | h
    · rw [h]
      rfl
    · rw [h]
      simp
  rw [if_pos hdst']

theorem rename_dir_move_spec (files : FileMap) (filePath newName : List Char)
    (hnodup : (mapKeys files).Nodup)
    (hbs : '\\' ∈ filePath → False)
    (hbsn : '\\' ∈ newName → False)
    (hvalid : validNewName newName = true)
    (hnf : mapHas (encodeL filePath) files = false)
    (hdir : (mapKeys files).any
      (fun k => begins (encodeL filePath ++ ['/']) k) = true)
    (hnc1 : mapHas
      (encodeL (replaceDblBackslash (joinL (dirnameL filePath) (trimL newName))))
      files = false)
    (hnc2 : (mapKeys files).any (fun k => begins
      (encodeL (replaceDblBackslash (joinL (dirnameL filePath) (trimL newName))) ++
        ['/']) k) = false) :
    (renameFileHandler files filePath newName).1 = RenameOutcome.renamedDir ∧
    (∀ k ∈ mapKeys files, begins (encodeL filePath ++ ['/']) k = true →
      mapGet (renamedKey (encodeL filePath ++ ['/'])
          (encodeL (replaceDblBackslash (joinL (dirnameL filePath) (trimL newName))) ++
            ['/']) k)
        (renameFileHandler files filePath newName).2 = mapGet k files) ∧
    (∀ k : List Char, begins (encodeL filePath ++ ['/']) k = true →
      mapGet k (renameFileHandler files filePath newName).2 = none) ∧
    (∀ k ∈ mapKeys files, begins (encodeL filePath ++ ['/']) k = false →
      mapGet k (renameFileHandler files filePath newName).2 = mapGet k files) := by
  have henc : encodeL ['/'] = ['/'] := rfl
  have hrun : renameFileHandler files filePath newName =
      (RenameOutcome.renamedDir,
        ((mapKeys files).filter
            (fun k => begins (encodeL filePath ++ ['/']) k)).foldl
          (moveStep (encodeL filePath ++ ['/'])
            (encodeL (replaceDblBackslash
              (joinL (dirnameL filePath) (trimL newName))) ++ ['/']))
          files) := by
    simp only [renameFileHandler, henc]
    rw [if_neg (by rw [hvalid]; simp), hnf, hdir, hnc1, hnc2]
    rfl
  -- a witness key under the old prefix
  obtain ⟨k0, hk0mem, hk0beg⟩ : ∃ k ∈ mapKeys files,
      begins (encodeL filePath ++ ['/']) k = true := by
    simpa using hdir
  have hall_new : ∀ k ∈ mapKeys files, begins
      (encodeL (replaceDblBackslash (joinL (dirnameL filePath) (trimL newName))) ++
        ['/']) k = false := by
    intro k hk
    rw [List.any_eq_false] at hnc2
    have := hnc2 k hk
    cases hx : begins
        (encodeL (replaceDblBackslash (joinL (dirnameL filePath) (trimL newName))) ++
          ['/']) k
    · rfl
    · exact absurd hx this
  -- no slash in the trimmed new name
  have hslash : ('/' ∈ trimL newName → False) := by
    intro hm
    have hv := hvalid
    unfold validNewName at hv
    simp only [Bool.and_eq_true] at hv
    have hcont := hv.1.2
    have hmem : '/' ∈ newName := mem_trimL hm
    rw [show (!newName.contains '/') = true ↔ newName.contains '/' = false by simp]
      at hcont
    simp [List.elem_iff, List.contains] at hcont
    exact hcont hmem
  -- no backslash in the joined path, so the replace is the identity
  have hjbs : ('\\' ∈ joinL (dirnameL filePath) (trimL newName) → False) := by
    intro hm
    unfold joinL at hm
    by_cases hd : dirnameL filePath == ['.']
    · rw [if_pos hd] at hm
      exact hbsn (mem_trimL hm)
    · rw [if_neg hd] at hm
      rcases List.mem_append.mp hm with hm1 | hm2
      · -- backslash in the dirname, hence in filePath
        unfold dirnameL at hm1
        cases hsp : splitLastSlash filePath with
        | none =>
          rw [hsp] at hm1
          simp at hm1
        | some pr =>
          obtain ⟨b, a⟩ := pr
          rw [hsp] at hm1
          obtain ⟨hfp, _⟩ := splitLastSlash_some_spec filePath b a hsp
          exact hbs (by rw [hfp]; exact List.mem_append.mpr (Or.inl hm1))
      · rcases List.mem_cons.mp hm2 with hm3 | hm4
        · simp at hm3
        · exact hbsn (mem_trimL hm4)
  have hid : replaceDblBackslash (joinL (dirnameL filePath) (trimL newName)) =
      joinL (dirnameL filePath) (trimL newName) := replaceDbl_id _ hjbs
  -- slash count of the new path never exceeds that of the old path
  have hcount : (encodeL (replaceDblBackslash
        (joinL (dirnameL filePath) (trimL newName)))).count '/' ≤
      (encodeL filePath).count '/' := by
    rw [count_slash_encodeL, count_slash_encodeL, hid]
    have hnm0 : (trimL newName).count '/' = 0 :=
      List.count_eq_zero.mpr (fun hm => hslash hm)
    unfold joinL
    by_cases hd : dirnameL filePath == ['.']
    · rw [if_pos hd, hnm0]
      exact Nat.zero_le _
    · rw [if_neg hd]
      cases hsp : splitLastSlash filePath with
      | none =>
        -- no slash in filePath, yet dirname ≠ '.', impossible
        unfold dirnameL at hd
        rw [hsp] at hd
        simp at hd
      | some pr =>
        obtain ⟨b, a⟩ := pr
        have hdirb : dirnameL filePath = b := by
          unfold dirnameL
          rw [hsp]
        rw [hdirb]
        obtain ⟨hfp, _⟩ := splitLastSlash_some_spec filePath b a hsp
        rw [hfp, List.count_append, List.count_append, List.count_cons, hnm0,
          List.count_cons]
        simp
  have hINC : ∀ s t : List Char, (encodeL filePath ++ ['/']) ++ s ≠
      (encodeL (replaceDblBackslash (joinL (dirnameL filePath) (trimL newName))) ++
        ['/']) ++ t :=
    begins_false_of_count_lt k0 hcount hk0beg (hall_new k0 hk0mem)
  -- the fold invariant
  obtain ⟨HF1, HF2, HF3⟩ := moveFold_get (encodeL filePath ++ ['/'])
    (encodeL (replaceDblBackslash (joinL (dirnameL filePath) (trimL newName))) ++
      ['/']) files hINC
    ((mapKeys files).filter (fun k => begins (encodeL filePath ++ ['/']) k)) files
    (fun k hk => (List.mem_filter.mp hk).2)
    (hnodup.filter _)
    (fun _ _ => rfl)
    (fun k hk => (mapGet_isSome_iff_mem_keys k files).mpr (List.mem_filter.mp hk).1)
  refine ⟨by rw [hrun], ?_, ?_, ?_⟩
  · intro k hk hbeg
    rw [hrun]
    exact HF1 k (List.mem_filter.mpr ⟨hk, hbeg⟩)
  · intro k hbeg
    rw [hrun]
    by_cases hk : k ∈ (mapKeys files).filter
        (fun x => begins (encodeL filePath ++ ['/']) x)
    · exact HF2 k hk
    · have hknotmem : k ∉ mapKeys files := by
        intro hmem
        exact hk (List.mem_filter.mpr ⟨hmem, hbeg⟩)
      have hnonefiles : mapGet k files = none := by
        cases hx : mapGet k files with
        | none => rfl
        | some v =>
          exact absurd ((mapGet_isSome_iff_mem_keys k files).mp (by rw [hx]; rfl))
            hknotmem
      obtain ⟨sk, hsk⟩ := begins_eq_append hbeg
      rw [HF3 k ?hcond]
      case hcond =>
        intro km hkm
        obtain ⟨skm, hskm⟩ := begins_eq_append (List.mem_filter.mp hkm).2
        refine ⟨fun he => hk (he ▸ hkm), ?_⟩
        rw [hsk, hskm, renamedKey_eq]
        exact hINC sk skm
      exact hnonefiles
  · intro k hk hbeg
    rw [hrun]
    apply HF3 k
    intro km hkm
    obtain ⟨skm, hskm⟩ := begins_eq_append (List.mem_filter.mp hkm).2
    constructor
    · intro he
      rw [he] at hbeg
      rw [(List.mem_filter.mp hkm).2] at hbeg
      simp at hbeg
    · intro he
      have : begins (encodeL (replaceDblBackslash
          (joinL (dirnameL filePath) (trimL newName))) ++ ['/']) k = true := by
        rw [he, hskm, renamedKey_eq]
        exact begins_append_self _ _
      rw [hall_new k hk] at this
      simp at this

/-- C8: with a duplicate-free store and backslash-free inputs, (i) a rename
whose destination already exists — as the file itself or as a directory
prefix — is rejected with `destExists` and the store is returned unchanged,
for a file source as well as a directory source; (ii) a directory rename
with an existing source and a fresh destination succeeds and moves every key
under the old prefix to the corresponding key under the new prefix, removes
every key under the old prefix, and leaves every other key untouched. -/
theorem C8_rename_atomicity (files : FileMap) (filePath newName : List Char)
    (hnodup : (mapKeys files).Nodup)
    (hbs : '\\' ∈ filePath → False)
    (hbsn : '\\' ∈ newName → False)
    (hvalid : validNewName newName = true) :
    ((mapHas (encodeL filePath) files = true ∨
        (mapKeys files).any (fun k => begins (encodeL filePath ++ ['/']) k) = true) →
      (mapHas (encodeL (replaceDblBackslash
          (joinL (dirnameL filePath) (trimL newName)))) files = true ∨
        (mapKeys files).any (fun k => begins
          (encodeL (replaceDblBackslash (joinL (dirnameL filePath) (trimL newName))) ++
            ['/']) k) = true) →
      renameFileHandler files filePath newName = (RenameOutcome.destExists, files)) ∧
    (mapHas (encodeL filePath) files = false →
      (mapKeys files).any (fun k => begins (encodeL filePath ++ ['/']) k) = true →
      mapHas (encodeL (replaceDblBackslash
        (joinL (dirnameL filePath) (trimL newName)))) files = false →
      (mapKeys files).any (fun k => begins
        (encodeL (replaceDblBackslash (joinL (dirnameL filePath) (trimL newName))) ++
          ['/']) k) = false →
      (renameFileHandler files filePath newName).1 = RenameOutcome.renamedDir ∧
      (∀ k ∈ mapKeys files, begins (encodeL filePath ++ ['/']) k = true →
        mapGet (renamedKey (encodeL filePath ++ ['/'])
            (encodeL (replaceDblBackslash
              (joinL (dirnameL filePath) (trimL newName))) ++ ['/']) k)
          (renameFileHandler files filePath newName).2 = mapGet k files) ∧
      (∀ k : List Char, begins (encodeL filePath ++ ['/']) k = true →
        mapGet k (renameFileHandler files filePath newName).2 = none) ∧
      (∀ k ∈ mapKeys files, begins (encodeL filePath ++ ['/']) k = false →
        mapGet k (renameFileHandler files filePath newName).2 = mapGet k files)) :=
  ⟨fun h1 h2 => rename_collision_rejected files filePath newName hvalid h1 h2,
   fun hnf hdir hnc1 hnc2 =>
     rename_dir_move_spec files filePath newName hnodup hbs hbsn hvalid hnf hdir hnc1 hnc2⟩

theorem C8_rename_atomicity_witness :
    (renameFileHandler [(("dir/a").toList, "va"), (("keep").toList, "vk")]
        ("dir").toList ("newdir").toList).1 = RenameOutcome.renamedDir ∧
    mapGet ("newdir/a").toList
      (renameFileHandler [(("dir/a").toList, "va"), (("keep").toList, "vk")]
        ("dir").toList ("newdir").toList).2 = some "va" ∧
    mapGet ("dir/a").toList
      (renameFileHandler [(("dir/a").toList, "va"), (("keep").toList, "vk")]
        ("dir").toList ("newdir").toList).2 = none ∧
    mapGet ("keep").toList
      (renameFileHandler [(("dir/a").toList, "va"), (("keep").toList, "vk")]
        ("dir").toList ("newdir").toList).2 = some "vk" :=
  ⟨((C8_rename_atomicity [(("dir/a").toList, "va"), (("keep").toList, "vk")]
      ("dir").toList ("newdir").toList (by decide) (by decide) (by decide)
      (by decide)).2 (by decide) (by decide) (by decide) (by decide)).1,
   by decide, by decide, by decide⟩

theorem C9_path_codec_roundtrip_witness :
    validRelPath ['a', '/', 'b', '.', 't', 'x', 't'] = true ∧
    occurs tok5 ['a', '/', 'b', '.', 't', 'x', 't'] = false ∧
    (['a', '/', 'b', '.', 't', 'x', 't'].contains '\\') = false ∧
    decodeL (encodeL ['a', '/', 'b', '.', 't', 'x', 't']) =
      normalizeL ['a', '/', 'b', '.', 't', 'x', 't'] :=
  ⟨by decide, by decide, by decide,
    C9_path_codec_roundtrip _ (by decide) (by decide) (by decide)⟩

end Dexster
